import Mathlib

/-
Verification of RetroRomWeb's core subsystems against a shallow embedding of
the JavaScript sources: the metadata-resolution cascade (src/utils/scraper.js),
the reconciliation/sync pipeline, the two-level scheduler, the media fetcher
with dedup cache and the orphan reaper (scripts/scanner source), and the
on-demand archive composer (server source).

Modelling conventions:
- JS strings are Lean `String`s; JS falsy string fields are modelled as
  `Option String` with `none` standing for `null`/`undefined`/`""` where the
  source only ever tests truthiness.
- The on-disk media store is an association list from relative POSIX paths
  (the portion below `config.mediaDir`) to file contents (byte lists).
- Network and filesystem effects are passed in as explicit oracles; a
  transport failure is `Except.error`, carrying no information (the sources
  discard the error object).
-/

namespace RetroRomWeb

/- Section 1: string and path helpers (the subset of node's `path` module and
of JS string/regex operations that the sources use). They are written over
the character list of the string so that concrete witnesses evaluate by
kernel reduction. -/

/-- JS `toLowerCase()` (ASCII range, which is all the sources compare). -/
def jsToLower (s : String) : String := String.mk (s.data.map Char.toLower)

/-- JS `toUpperCase()` (ASCII range). -/
def jsToUpper (s : String) : String := String.mk (s.data.map Char.toUpper)

/-- JS `s.startsWith(pre)`. -/
def strStartsWith (s pre : String) : Bool := pre.data.isPrefixOf s.data

/-- JS `s.endsWith(suf)`. -/
def strEndsWith (s suf : String) : Bool := suf.data.isSuffixOf s.data

/-- JS `s.trim()`. -/
def jsTrim (s : String) : String :=
  String.mk
    (((s.data.dropWhile Char.isWhitespace).reverse.dropWhile Char.isWhitespace).reverse)

/-- `split(sep)` on character lists for a nonempty separator: greedy scan,
splitting at each occurrence. Structural recursion on a fuel that each step
strictly consumes; the wrapper passes the list's length, which is always
sufficient. -/
def splitOnFuel (sep : List Char) : Nat → List Char → List (List Char)
  | _, [] => [[]]
  | 0, l => [l]
  | fuel + 1, c :: rest =>
    if sep.isPrefixOf (c :: rest) ∧ sep ≠ [] then
      [] :: splitOnFuel sep fuel ((c :: rest).drop sep.length)
    else
      match splitOnFuel sep fuel rest with
      | h :: t => (c :: h) :: t
      | [] => [[c]]

/-- JS `s.split(sep)` for the nonempty separators the sources use (an empty
separator degenerates to no split). -/
def splitOnL (sep s : String) : List String :=
  if sep.data.isEmpty then [s]
  else (splitOnFuel sep.data s.data.length s.data).map String.mk

/-- `s.includes(sub)` for a nonempty needle: substring containment test. -/
def strContains (s sub : String) : Bool :=
  (splitOnL sub s).length ≥ 2

/-- `path.basename(p)` (POSIX): the component after the last `/`. -/
def pathBasename (p : String) : String :=
  (splitOnL "/" p).getLastD ""

/-- `path.extname(p)` (POSIX): `"." ++` the suffix after the last dot of the
basename, or `""` when the basename has no dot or only a leading dot. -/
def extname (p : String) : String :=
  let base := pathBasename p
  let parts := splitOnL "." base
  if parts.length ≤ 1 then ""
  else if parts.headD "" = "" ∧ parts.length = 2 then ""
  else "." ++ parts.getLastD ""

/-- `path.basename(filename, path.extname(filename))`: the filename stem. -/
def getRomStem (filename : String) : String :=
  let base := pathBasename filename
  let ext := extname filename
  if ext ≠ "" ∧ ext.length < base.length ∧ strEndsWith base ext then
    base.dropRight ext.length
  else base

/-- Helper for the non-greedy bracket-stripping regexes: drop everything up to
and including the first occurrence of `cl`; `none` if `cl` never occurs. -/
def dropThrough (cl : Char) : List Char → Option (List Char)
  | [] => none
  | c :: rest => if c = cl then some rest else dropThrough cl rest

theorem dropThrough_length_le (cl : Char) :
    ∀ (l l' : List Char), dropThrough cl l = some l' → l'.length ≤ l.length := by
  intro l
  induction l with
  | nil => intro l' h; simp [dropThrough] at h
  | cons c rest ih =>
    intro l' h
    simp only [dropThrough] at h
    split at h
    · cases h; simp
    · have := ih l' h
      simp
      omega

theorem dropWhile_length_le {α : Type} (p : α → Bool) :
    ∀ l : List α, (l.dropWhile p).length ≤ l.length := by
  intro l
  induction l with
  | nil => simp [List.dropWhile]
  | cons c rest ih =>
    simp only [List.dropWhile]
    split
    · simp; omega
    · simp

/-- `name.replace(/\[.*?\]/g, '')` (and the `(...)` variant): repeatedly drop a
non-greedy delimited span; an opener with no closer is left in place. Fueled
structural recursion; every step consumes at least one character. -/
def stripDelimFuel (op cl : Char) : Nat → List Char → List Char
  | _, [] => []
  | 0, l => l
  | fuel + 1, c :: rest =>
    if c = op then
      match dropThrough cl rest with
      | some rest' => stripDelimFuel op cl fuel rest'
      | none => c :: rest
    else c :: stripDelimFuel op cl fuel rest

def stripDelim (op cl : Char) (l : List Char) : List Char :=
  stripDelimFuel op cl l.length l

/-- `name.replace(/v\d+(\.\d+)?/gi, '')`: drop each `v`/`V` followed by digits,
optionally followed by a dot and more digits. Fueled structural recursion. -/
def stripVerFuel : Nat → List Char → List Char
  | _, [] => []
  | 0, l => l
  | fuel + 1, c :: rest =>
    if c = 'v' ∨ c = 'V' then
      match rest.takeWhile Char.isDigit with
      | [] => c :: stripVerFuel fuel rest
      | _ :: _ =>
        match rest.dropWhile Char.isDigit with
        | '.' :: r2 =>
          match r2.takeWhile Char.isDigit with
          | [] => stripVerFuel fuel ('.' :: r2)
          | _ :: _ => stripVerFuel fuel (r2.dropWhile Char.isDigit)
        | other => stripVerFuel fuel other
    else c :: stripVerFuel fuel rest

def stripVer (l : List Char) : List Char :=
  stripVerFuel l.length l

/-- The punctuation class `[&:\-_!.,;']` collapsed to spaces by `cleanRomName`
(the last entry is the apostrophe, written by code point). -/
def romPunct : List Char := ['&', ':', '-', '_', '!', '.', ',', ';', Char.ofNat 39]

/-- The maximal whitespace-free words of a character list, in order. Fueled
structural recursion. -/
def wordsFuel : Nat → List Char → List (List Char)
  | _, [] => []
  | 0, _ => []
  | fuel + 1, c :: rest =>
    if c.isWhitespace then wordsFuel fuel rest
    else
      ((c :: rest).takeWhile (fun x => !x.isWhitespace)) ::
        wordsFuel fuel ((c :: rest).dropWhile (fun x => !x.isWhitespace))

def wordsAux (l : List Char) : List (List Char) :=
  wordsFuel l.length l

/-- `cleanRomName` from scraper.js: stem, strip `[...]` and `(...)` spans and
version tokens, collapse punctuation to spaces, squeeze whitespace
(`replace(\s+, ' ')` followed by `trim` is the single-space join of the
words), trim. -/
def cleanRomName (filename : String) : String :=
  let name := getRomStem filename
  let l := stripDelim '[' ']' name.data
  let l := stripDelim '(' ')' l
  let l := stripVer l
  let l := l.map (fun c => if romPunct.contains c then ' ' else c)
  String.intercalate " " ((wordsAux l).map String.mk)

/- Section 2: the metadata-resolution cascade (src/utils/scraper.js).
The network is an oracle: each tier's HTTP exchange is a pre-supplied
`Except Unit response`, where `Except.error` stands for a transport error
(axios reject / non-2xx); the catching `try` blocks of the source are the
`match`es on that `Except`. -/

def MD5_THRESHOLD : Nat := 64 * 1024 * 1024

def LARGE_FILE_EXTS : List String := [".iso", ".chd", ".cso", ".wbfs", ".rvz"]

def ARCADE_SYSTEM_IDS : List String := ["75", "142", "56", "53", "70"]

/-- One entry of a localized-text array (`{region, text}`). -/
structure LocText where
  region : Option String
  text : String
deriving DecidableEq, Repr

/-- A field such as `jeu.noms`: either an array of region-tagged texts or a
single (possibly absent) object with a `.text`. -/
inductive NomsField where
  | arr : List LocText → NomsField
  | single : Option LocText → NomsField
deriving DecidableEq, Repr

/-- `getLocalizedText` from scraper.js: scan the region priority list, fall
back to the first entry, else the empty string. -/
def getLocalizedText : NomsField → String
  | .single none => ""
  | .single (some o) => o.text
  | .arr l =>
    let regions := ["us", "jp", "cn", "zh", "tw", "hk", "en", "eu", "ss"]
    match regions.findSome?
        (fun r => l.find? (fun n => match n.region with
          | some rg => jsToLower rg = r
          | none => false)) with
    | some found => found.text
    | none =>
      match l.head? with
      | some n => n.text
      | none => ""

/-- The slice of a `jeu` response object the cascade's control flow inspects:
its identifier (`""` models a JS-falsy id) and its name list. -/
structure Jeu where
  id : String
  noms : NomsField
deriving DecidableEq, Repr

def NOTGAME_PREFIX : String := "ZZZ(NOTGAME)"

/-- `isValidGame` from scraper.js: the response chain must reach a `jeu` with
a truthy id, and a truthy localized name starting with `ZZZ(NOTGAME)` (case
folded) rejects the hit. `none` models any break in
`data.response.jeu`. -/
def isValidGame (d : Option Jeu) : Bool :=
  match d with
  | some jeu =>
    if jeu.id ≠ "" then
      let gameName := getLocalizedText jeu.noms
      if gameName ≠ "" ∧ strStartsWith (jsToUpper gameName) NOTGAME_PREFIX then false
      else true
    else false
  | none => false

/-- The value `parseGameData(jeu, name)` the cascade returns on a hit.
`parseGameData` is a pure projection of the matched response; the claims
below only concern which response (if any) gets parsed, so the embedding
keeps the call's arguments rather than re-deriving its output record. -/
structure MatchResult where
  jeu : Jeu
  sourceName : String
deriving DecidableEq, Repr

/-- `tryJeuInfosMD5`: a transport error is caught and is a miss; an invalid
response is a miss; otherwise the parsed hit. -/
def tryJeuInfosMD5 (resp : Except Unit (Option Jeu)) (filename : String) :
    Option MatchResult :=
  match resp with
  | .error _ => none
  | .ok d =>
    if isValidGame d then
      match d with
      | some jeu => some ⟨jeu, filename⟩
      | none => none
    else none

/-- `tryJeuInfosFilename`: same shape as the MD5 tier, parsing with the stem. -/
def tryJeuInfosFilename (resp : Except Unit (Option Jeu)) (romStem : String) :
    Option MatchResult :=
  match resp with
  | .error _ => none
  | .ok d =>
    if isValidGame d then
      match d with
      | some jeu => some ⟨jeu, romStem⟩
      | none => none
    else none

/-- The `jeux.find(...)` of `searchByText`: first element with a truthy
localized name that does not start with the sentinel. -/
def tier3ValidPick (jeux : List Jeu) : Option Jeu :=
  jeux.find? (fun g =>
    let n := getLocalizedText g.noms
    n != "" && !(strStartsWith (jsToUpper n) NOTGAME_PREFIX))

/-- `searchByText`: the free-text tier. The request parameters (clean name,
optional system scope) only shape the oracle's response; failures and empty
lists are misses; the picked element must additionally carry a truthy id. -/
def searchByText (resp : Except Unit (Option (List Jeu))) (filename : String) :
    Option MatchResult :=
  match resp with
  | .error _ => none
  | .ok none => none
  | .ok (some jeux) =>
    if jeux.length > 0 then
      match tier3ValidPick jeux with
      | some validMatch =>
        if validMatch.id ≠ "" then some ⟨validMatch, filename⟩ else none
      | none => none
    else none

/-- Scraper credentials; the remaining config fields only decorate request
parameters. `""` models an unset (falsy) credential. -/
structure SSConfig where
  devId : String
  devPassword : String
deriving DecidableEq, Repr

/-- The lookup service, as response oracles per tier: `t1` answers the
hash-exact query, `t2` the filename-exact query, `t3` the free-text search
for a given optional system scope. -/
structure ScraperApi where
  t1 : Except Unit (Option Jeu)
  t2 : Except Unit (Option Jeu)
  t3 : Option String → Except Unit (Option (List Jeu))

/-- `searchWithFallback`: scoped search when a system id is known (its miss
stops the cascade), otherwise a single global search. -/
def searchWithFallback (systemId : Option String) (api : ScraperApi)
    (filename : String) : Option MatchResult :=
  match systemId with
  | some _ => searchByText (api.t3 systemId) filename
  | none => searchByText (api.t3 none) filename

inductive ScrapeTier where
  | md5Query
  | romnomQuery
  | textQuery
deriving DecidableEq, Repr

/-- Local file oracle for `fetchGameInfo`: `stat` yields the ROM size (0 when
`existsSync` is false), or an error when `statSync` throws; `md5` is the
whole-file digest or a read failure. -/
structure FileOracle where
  stat : Except Unit Nat
  md5 : Except Unit String

/-- What one `fetchGameInfo` call did: its return value, which lookup-service
queries it issued in order, whether it hashed the ROM's bytes, and whether it
reached the `existsSync`/`statSync` probe. -/
structure FetchOutcome where
  result : Option MatchResult
  tiersIssued : List ScrapeTier
  hashedFile : Bool
  stattedFile : Bool
deriving DecidableEq, Repr

/-- The `isArcade` classification of `fetchGameInfo`: system id allow-list, or
an `arcade`/`mame` substring in the lowercased directory name. -/
def isArcadeSystem (systemId : String) (system : String) : Bool :=
  ARCADE_SYSTEM_IDS.contains systemId ||
  strContains (jsToLower system) "arcade" || strContains (jsToLower system) "mame"

/-- Level 1 of `fetchGameInfo`: compute the digest and query by it unless the
file is a large container format or above the size threshold; a digest
failure is caught and skips the query. Returns the result, the queries
issued, and whether the file's bytes were read. -/
def levelOne (filename : String) (romSize : Nat) (md5res : Except Unit String)
    (t1 : Except Unit (Option Jeu)) (isLargeFormat : Bool) :
    Option MatchResult × List ScrapeTier × Bool :=
  if ¬ isLargeFormat ∧ romSize ≤ MD5_THRESHOLD then
    match md5res with
    | .error _ => (none, [], true)
    | .ok _ => (tryJeuInfosMD5 t1 filename, [.md5Query], true)
  else (none, [], false)

/-- Levels 2-3 of `fetchGameInfo`: filename-exact match, then — unless the
partition is arcade-classified or the cleaned name is shorter than 4
characters — the scoped free-text search. -/
def levelsTwoThree (system filename systemId : String) (api : ScraperApi)
    (tiers : List ScrapeTier) (hashed : Bool) : FetchOutcome :=
  match tryJeuInfosFilename api.t2 (getRomStem filename) with
  | some r => ⟨some r, tiers ++ [.romnomQuery], hashed, true⟩
  | none =>
    if isArcadeSystem systemId system then
      ⟨none, tiers ++ [.romnomQuery], hashed, true⟩
    else if (cleanRomName filename).length < 4 then
      ⟨none, tiers ++ [.romnomQuery], hashed, true⟩
    else
      ⟨searchWithFallback (some systemId) api filename,
        tiers ++ [.romnomQuery, .textQuery], hashed, true⟩

/-- `fetchGameInfo` from scraper.js: credential guard, no-system-id global
search, stat probe, then the MD5 / filename / free-text cascade with the
arcade and short-name cutoffs before tier 3. -/
def fetchGameInfo (cfg : Option SSConfig) (system filename : String)
    (explicitSystemId : Option String) (fsOracle : FileOracle)
    (api : ScraperApi) : FetchOutcome :=
  match cfg with
  | none => ⟨none, [], false, false⟩
  | some ss =>
    if ss.devId = "" ∨ ss.devPassword = "" then ⟨none, [], false, false⟩
    else
      match explicitSystemId with
      | none => ⟨searchWithFallback none api filename, [.textQuery], false, false⟩
      | some systemId =>
        match fsOracle.stat with
        | .error _ => ⟨none, [], false, true⟩
        | .ok romSize =>
          let isLargeFormat := LARGE_FILE_EXTS.contains (jsToLower (extname filename))
          match levelOne filename romSize fsOracle.md5 api.t1 isLargeFormat with
          | (some r, tiers, hashed) => ⟨some r, tiers, hashed, true⟩
          | (none, tiers, hashed) => levelsTwoThree system filename systemId api tiers hashed

/- Section 3: the media store, dedup cache and media fetcher (scanner source).
Files live in an association list keyed by the relative POSIX path below
`config.mediaDir`; `media_library` is an association list keyed by URL. -/

abbrev ByteSeq := List Nat

abbrev Fs := List (String × ByteSeq)

def fsLookup (fs : Fs) (p : String) : Option ByteSeq :=
  (fs.find? (fun kv => kv.1 = p)).map (fun kv => kv.2)

def fsErase (fs : Fs) (p : String) : Fs :=
  fs.filter (fun kv => kv.1 ≠ p)

def fsWrite (fs : Fs) (p : String) (c : ByteSeq) : Fs :=
  (p, c) :: fsErase fs p

/-- `readdirSync dir`: the names directly inside `dir` (keys of the form
`dir/name` with no further slash). -/
def listDir (fs : Fs) (dir : String) : List String :=
  fs.filterMap (fun kv =>
    let pre := dir ++ "/"
    if strStartsWith kv.1 pre then
      let rest := kv.1.drop pre.length
      if rest.data.contains '/' then none else some rest
    else none)

abbrev MediaLib := List (String × String)

def libLookup (lib : MediaLib) (url : String) : Option String :=
  (lib.find? (fun kv => kv.1 = url)).map (fun kv => kv.2)

/-- `INSERT OR REPLACE INTO media_library`. -/
def libInsert (lib : MediaLib) (url p : String) : MediaLib :=
  (url, p) :: lib.filter (fun kv => kv.1 ≠ url)

structure MediaState where
  fs : Fs
  lib : MediaLib
deriving DecidableEq, Repr

def joinPath3 (a b c : String) : String := a ++ "/" ++ b ++ "/" ++ c

inductive DlAction where
  | skipped
  | linked
  | downloaded
  | dlFailed
deriving DecidableEq, Repr

/-- The tail of `downloadMedia` past the existence checks: dedup-cache lookup,
hard link when the prior copy is still on disk (modelled as sharing the
source's bytes), else stream the remote resource and register the mapping
when the file materialized. A `net` miss is a failed/aborted download that
leaves no file (`downloadFile` removes partial output). -/
def downloadFetch (url system typ filename : String)
    (net : String → Option ByteSeq) (st : MediaState) : MediaState × DlAction :=
  let target := joinPath3 system typ filename
  match net url with
  | some content =>
    (⟨fsWrite st.fs target content, libInsert st.lib url target⟩, .downloaded)
  | none => (st, .dlFailed)

def downloadCore (url system typ filename : String)
    (net : String → Option ByteSeq) (st : MediaState) : MediaState × DlAction :=
  let target := joinPath3 system typ filename
  match libLookup st.lib url with
  | some lp =>
    match fsLookup st.fs lp with
    | some srcContent => (⟨fsWrite st.fs target srcContent, st.lib⟩, .linked)
    | none => downloadFetch url system typ filename net st
  | none => downloadFetch url system typ filename net st

/-- `downloadMedia` from the scanner source: optional force-delete under
`overwrite`, idempotent skip of a non-empty existing target (a zero-size
leftover is unlinked), then `downloadCore`. -/
def downloadMedia (url system typ filename : String) (overwrite : Bool)
    (net : String → Option ByteSeq) (st : MediaState) : MediaState × DlAction :=
  let target := joinPath3 system typ filename
  let fs0 := if overwrite ∧ (fsLookup st.fs target).isSome
    then fsErase st.fs target else st.fs
  match fsLookup fs0 target with
  | some c =>
    if c.length > 0 then (⟨fs0, st.lib⟩, .skipped)
    else downloadCore url system typ filename net ⟨fsErase fs0 target, st.lib⟩
  | none => downloadCore url system typ filename net ⟨fs0, st.lib⟩

/- Section 4: sync options, catalog rows, the reconciliation filter, the
per-file pipeline `processNewGame`, the batch run, and the orphan reaper
(scanner source). -/

/-- A caller-supplied options object: each recognized flag may be absent
(JS `undefined`). -/
structure OptIn where
  syncInfo : Option Bool
  syncImages : Option Bool
  syncVideo : Option Bool
  syncMarquees : Option Bool
  syncBoxArt : Option Bool
  incremental : Option Bool
  overwrite : Option Bool
deriving DecidableEq, Repr

/-- Effective options after defaulting. -/
structure SyncOps where
  syncInfo : Bool
  syncImages : Bool
  syncVideo : Bool
  syncMarquees : Bool
  syncBoxArt : Bool
  incremental : Bool
  overwrite : Bool
deriving DecidableEq, Repr

/-- `processSystemSync`'s `defaultOps` (batch sync defaults). -/
def defaultBatchOps : SyncOps :=
  ⟨true, true, false, true, false, true, false⟩

/-- `options ? { ...defaultOps, ...options } : defaultOps` in
`processSystemSync`: field-wise override of the batch defaults. -/
def mergeBatchOps : Option OptIn → SyncOps
  | none => defaultBatchOps
  | some o =>
    ⟨o.syncInfo.getD true, o.syncImages.getD true, o.syncVideo.getD false,
      o.syncMarquees.getD true, o.syncBoxArt.getD false,
      o.incremental.getD true, o.overwrite.getD false⟩

/-- `syncSingleGame`'s option computation: `options || defaultOps` (its local
defaults carry no `incremental`/`overwrite`, and a supplied object is taken
as-is, absent flags being falsy), then `incremental` is forced off and
`overwrite` forced on. -/
def singleGameSyncOps : Option OptIn → SyncOps
  | none => ⟨true, true, false, true, false, false, true⟩
  | some o =>
    ⟨o.syncInfo.getD false, o.syncImages.getD false, o.syncVideo.getD false,
      o.syncMarquees.getD false, o.syncBoxArt.getD false, false, true⟩

/-- The placeholder synopsis. -/
def NO_DESC : String := "暂无简介"

/-- One row of the `games` table; the scanner reads and writes these columns
(`path`/`system` are determined by the partition and filename and carried
outside the row). -/
structure ScanRow where
  filename : String
  name : String
  desc : String
  rating : String
  developer : String
  publisher : String
  genre : String
  players : String
  image_path : Option String
  video_path : Option String
  marquee_path : Option String
  box_texture_path : Option String
  screenshot_path : Option String
deriving DecidableEq, Repr

def fileMissingOrEmpty (fs : Fs) (p : String) : Bool :=
  match fsLookup fs p with
  | none => true
  | some c => c.length = 0

/-- `missingInfo` of the `toUpdate` filter: the synopsis is requested and
still absent or the placeholder. -/
def missingDescB (ops : SyncOps) (g : ScanRow) : Bool :=
  ops.syncInfo && (g.desc == "" || g.desc == NO_DESC)

/-- The `missingImg`/`missingVid` pattern of the `toUpdate` filter: requested
and (no recorded path, or the recorded file is absent or zero-length). -/
def missingPrimaryAssetB (flag : Bool) (pathField : Option String) (fs : Fs) :
    Bool :=
  let m0 := flag && pathField.isNone
  if !m0 && flag && pathField.isSome then
    fileMissingOrEmpty fs (pathField.getD "")
  else m0

/-- The `missingMarquee`/`missingBoxArt` pattern of the `toUpdate` filter. -/
def missingSecondaryAssetB (flag : Bool) (pathField : Option String) (fs : Fs) :
    Bool :=
  if flag then
    match pathField with
    | none => true
    | some p => fileMissingOrEmpty fs p
  else false

/-- The `toUpdate` qualification test of `processSystemSync` for a file that
is on disk and cataloged: everything qualifies when `incremental` is off;
otherwise a placeholder description or a missing/zero-length backing file of
any requested category qualifies. -/
def needsUpdate (ops : SyncOps) (fs : Fs) (g : ScanRow) : Bool :=
  if ops.incremental = false then true
  else
    missingDescB ops g ||
    missingPrimaryAssetB ops.syncImages g.image_path fs ||
    missingPrimaryAssetB ops.syncVideo g.video_path fs ||
    missingSecondaryAssetB ops.syncMarquees g.marquee_path fs ||
    missingSecondaryAssetB ops.syncBoxArt g.box_texture_path fs

def IMG_EXTS : List String := [".png", ".jpg", ".jpeg", ".gif"]

def VIDEO_EXTS : List String := [".mp4", ".webm", ".mkv", ".avi"]

/-- `getDirFilesMap`'s lowercased-name lookup: the map assigns each lowercased
name its last directory entry, so a later case-colliding entry wins. The
source memoizes listings per run (`dirCache`); the model reads the current
store, which agrees whenever the listing is not mutated mid-run. -/
def findInDirLastLower (fs : Fs) (dir lowerName : String) : Option String :=
  (listDir fs dir).foldl
    (fun acc f => if jsToLower f = lowerName then some f else acc) none

/-- `findLocalImage`: probe `covers`, `miximages`, `screenshots` for the
basename with each image extension, case-insensitively. -/
def findLocalImage (fs : Fs) (system romBasename : String) : Option String :=
  ["covers", "miximages", "screenshots"].findSome? (fun t =>
    IMG_EXTS.findSome? (fun ext =>
      (findInDirLastLower fs (system ++ "/" ++ t) (jsToLower (romBasename ++ ext))).map
        (fun actual => joinPath3 system t actual)))

/-- `findLocalVideo`: probe `videos` with each video extension. -/
def findLocalVideo (fs : Fs) (system romBasename : String) : Option String :=
  VIDEO_EXTS.findSome? (fun ext =>
    (findInDirLastLower fs (system ++ "/videos") (jsToLower (romBasename ++ ext))).map
      (fun actual => joinPath3 system "videos" actual))

/-- The characters `[\\/:*?"<>|]` replaced by `-` in the scraped name. -/
def badNameChars : List Char := ['\\', '/', ':', '*', '?', '"', '<', '>', '|']

def sanitizeName (name : String) : String :=
  jsTrim (String.mk (name.data.map (fun c => if badNameChars.contains c then '-' else c)))

/-- The parsed scraper record as `processNewGame` consumes it. URL fields are
`none` for JS-falsy values; `boxTextureUrl` is read by `processNewGame` but
never produced by `parseGameData`, so it is `none` in any value the real
scraper returns. -/
structure ScraperData where
  name : String
  desc : String
  developer : String
  publisher : String
  genre : String
  players : String
  rating : String
  boxArtUrl : Option String
  screenUrl : Option String
  videoUrl : Option String
  marqueeUrl : Option String
  boxTextureUrl : Option String
deriving DecidableEq, Repr

/-- The extension computation of `handleDownload`: extension of the
query-stripped URL, with `.php`/`.html`/empty mapped to a per-type default. -/
def extForDownload (u typ : String) : String :=
  let cleanUrl := (splitOnL "?" u).headD ""
  let ext0 := jsToLower (extname cleanUrl)
  if ext0 = "" ∨ ext0 = ".php" ∨ ext0 = ".html" then
    if typ = "videos" then ".mp4" else ".png"
  else ext0

/-- `handleDownload` inside `processNewGame`: download under `safeName` with
the derived extension, and return the DB path (also when the transfer itself
failed; the caller stores it regardless). -/
def handleDownload (u : String) (system folder typ safeName : String)
    (overwrite : Bool) (net : String → Option ByteSeq) (st : MediaState) :
    Option String × MediaState :=
  if u = "" then (none, st)
  else
    let fileName := safeName ++ extForDownload u typ
    let dbPath := joinPath3 system folder fileName
    let res := downloadMedia u system typ fileName overwrite net st
    (some dbPath, res.1)

/-- JS `a || b` on strings. -/
def jsOr (a b : String) : String := if a = "" then b else a

/-- `if (old) x = old`: keep a truthy old value, else the fallback. -/
def keepOld (old fallback : Option String) : Option String :=
  match old with
  | some p => some p
  | none => fallback

/-- One optional per-category download of `processNewGame`: when the
category is requested and the scrape result carries a URL, run
`handleDownload` (folder and media type coincide at every call site) and
return its DB path; otherwise keep the current value and leave the store
untouched. -/
def dlStep (flag : Bool) (uOpt keep : Option String)
    (sys F safeName : String) (ow : Bool) (net : String → Option ByteSeq)
    (st : MediaState) : Option String × MediaState :=
  if flag then
    match uOpt with
    | some u => handleDownload u sys F F safeName ow net st
    | none => (keep, st)
  else (keep, st)

/-- The values `processNewGame` assembles before consulting the scraper:
locally discovered art, paths and descriptive fields carried over from the
old row, and the fallback defaults. -/
structure RowSeed where
  name : String
  desc : String
  rating : String
  developer : String
  publisher : String
  genre : String
  players : String
  image : Option String
  video : Option String
  marquee : Option String
  boxTexture : Option String
  screenshot : Option String
deriving DecidableEq, Repr

def rowSeed (fs : Fs) (system filename : String) (oldData : Option ScanRow) :
    RowSeed :=
  let basename := getRomStem filename
  let imagePath0 := findLocalImage fs system basename
  let videoPath0 := findLocalVideo fs system basename
  let oldOr := fun (f : ScanRow → String) (dflt : String) =>
    match oldData with
    | some od => jsOr (f od) dflt
    | none => dflt
  { name := oldOr (fun r => r.name) basename
    desc := oldOr (fun r => r.desc) NO_DESC
    rating := oldOr (fun r => r.rating) "0"
    developer := oldOr (fun r => r.developer) ""
    publisher := oldOr (fun r => r.publisher) ""
    genre := oldOr (fun r => r.genre) ""
    players := oldOr (fun r => r.players) ""
    image := match oldData with
      | some od => keepOld od.image_path imagePath0
      | none => imagePath0
    video := match oldData with
      | some od => keepOld od.video_path videoPath0
      | none => videoPath0
    marquee := match oldData with
      | some od => od.marquee_path
      | none => none
    boxTexture := match oldData with
      | some od => od.box_texture_path
      | none => none
    screenshot := match oldData with
      | some od => od.screenshot_path
      | none => none }

/-- The scrape-hit branch of `processNewGame`: overwrite the descriptive
fields when `syncInfo` is set, then run the per-category downloads in source
order (cover, screenshot, video, marquee, box texture) and assemble the row
to insert. -/
def scrapeApply (system filename : String) (seed : RowSeed) (ops : SyncOps)
    (d : ScraperData) (net : String → Option ByteSeq) (st : MediaState) :
    ScanRow × MediaState :=
  let infoName := if ops.syncInfo then d.name else seed.name
  let infoDesc := if ops.syncInfo then d.desc else seed.desc
  let infoRating := if ops.syncInfo then d.rating else seed.rating
  let infoDeveloper := if ops.syncInfo then d.developer else seed.developer
  let infoPublisher := if ops.syncInfo then d.publisher else seed.publisher
  let infoGenre := if ops.syncInfo then d.genre else seed.genre
  let infoPlayers := if ops.syncInfo then d.players else seed.players
  let safeName := sanitizeName d.name
  let ow := ops.overwrite
  let stepA := dlStep ops.syncImages d.boxArtUrl seed.image system "covers"
    safeName ow net st
  let stepB := dlStep ops.syncImages d.screenUrl seed.screenshot system
    "screenshots" safeName ow net stepA.2
  let stepC := dlStep ops.syncVideo d.videoUrl seed.video system "videos"
    safeName ow net stepB.2
  let stepD := dlStep ops.syncMarquees d.marqueeUrl seed.marquee system
    "marquees" safeName ow net stepC.2
  let stepE := dlStep ops.syncBoxArt d.boxTextureUrl seed.boxTexture system
    "boxtextures" safeName ow net stepD.2
  (⟨filename, infoName, infoDesc, infoRating, infoDeveloper, infoPublisher,
      infoGenre, infoPlayers, stepA.1, stepC.1, stepD.1, stepE.1, stepB.1⟩,
    stepE.2)

/-- `processNewGame` from the scanner source, as the pure computation of the
row it inserts and of the media-store effects of its downloads. `scrape` is
the `fetchGameInfo` outcome for this file (`none` also covers a thrown and
caught scrape error, which leaves the defaults in place). -/
def processNewGame (system filename : String) (oldData : Option ScanRow)
    (ops : SyncOps) (scrape : Option ScraperData)
    (net : String → Option ByteSeq) (st : MediaState) : ScanRow × MediaState :=
  let seed := rowSeed st.fs system filename oldData
  let shouldScrape := ops.syncInfo || ops.syncImages || ops.syncVideo ||
    ops.syncMarquees || ops.syncBoxArt || oldData.isNone
  match shouldScrape, scrape with
  | true, some d => scrapeApply system filename seed ops d net st
  | _, _ =>
    (⟨filename, seed.name, seed.desc, seed.rating, seed.developer,
        seed.publisher, seed.genre, seed.players, seed.image, seed.video,
        seed.marquee, seed.boxTexture, seed.screenshot⟩, st)

/-- `dbFilenameMap` lookup: the JS object assigns in row order, so for a
duplicated filename the last row wins. -/
def lookupRowLast (rows : List ScanRow) (fn : String) : Option ScanRow :=
  rows.foldl (fun acc g => if g.filename = fn then some g else acc) none

def computeToUpdate (diskFiles : List String) (rows : List ScanRow)
    (ops : SyncOps) (fs : Fs) : List String :=
  (rows.filter (fun g => diskFiles.contains g.filename && needsUpdate ops fs g)).map
    (fun g => g.filename)

/-- `Array.from(new Set(list))`: deduplication keeping first occurrences in
order (JS `Set` insertion order). -/
def dedupKeepFirst (l : List String) : List String :=
  l.foldl (fun acc x => if acc.contains x then acc else acc ++ [x]) []

/-- One per-file task of the batch run: delete the old row when one exists,
run the pipeline, insert the fresh row. -/
def syncStep (system : String) (dbGames : List ScanRow) (ops : SyncOps)
    (scrape : String → Option ScraperData) (net : String → Option ByteSeq)
    (acc : List ScanRow × MediaState) (f : String) :
    List ScanRow × MediaState :=
  let oldData := lookupRowLast dbGames f
  let rows1 := match oldData with
    | some _ => acc.1.filter (fun g => g.filename ≠ f)
    | none => acc.1
  let res := processNewGame system f oldData ops (scrape f) net acc.2
  (rows1 ++ [res.1], res.2)

/-- One batch run of `processSystemSync` past the queue bookkeeping, under an
execution in which no stop was requested and every queued per-file task ran:
compute `toAdd`/`toDelete`/`toUpdate` against the initial store, delete the
`toDelete` rows, then fold the per-file pipeline over the deduplicated task
list. -/
def syncRun (system : String) (diskFiles : List String)
    (dbGames : List ScanRow) (ops : SyncOps)
    (scrape : String → Option ScraperData) (net : String → Option ByteSeq)
    (st : MediaState) : List ScanRow × MediaState :=
  let toAdd := diskFiles.filter (fun f => (lookupRowLast dbGames f).isNone)
  let toUpdate := computeToUpdate diskFiles dbGames ops st.fs
  let survivors := dbGames.filter (fun g => diskFiles.contains g.filename)
  let taskList := dedupKeepFirst (toAdd ++ toUpdate)
  taskList.foldl (syncStep system dbGames ops scrape net) (survivors, st)

def MEDIA_FOLDERS : List String :=
  ["covers", "videos", "marquees", "boxtextures", "screenshots"]

def rowAssetPaths (g : ScanRow) : List String :=
  [g.image_path, g.video_path, g.marquee_path, g.box_texture_path,
    g.screenshot_path].filterMap id

/-- The `validPaths` set of `cleanOrphanedMedia` (paths are stored in
canonical POSIX form, on which `path.normalize` is the identity). -/
def validAssetPaths (rows : List ScanRow) : List String :=
  rows.foldl (fun acc g => acc ++ rowAssetPaths g) []

/-- Does `key` name a direct child of `system/folder`? Returns the name. -/
def underFolder (system folder key : String) : Option String :=
  let pre := system ++ "/" ++ folder ++ "/"
  if strStartsWith key pre then
    let rest := key.drop pre.length
    if rest.data.contains '/' then none else some rest
  else none

/-- Whether the sweep's loop would call `unlinkSync` on `key`: it lies in one
of the five tracked sub-directories, is not dot-prefixed, and its
`dbStylePath` is not referenced. -/
def sweepShouldDelete (system : String) (valid : List String) (key : String) : Bool :=
  MEDIA_FOLDERS.any (fun folder =>
    match underFolder system folder key with
    | some name =>
      !(strStartsWith name ".") && !(valid.contains (joinPath3 system folder name))
    | none => false)

/-- `cleanOrphanedMedia`: per-file deletions are independent, so the sweep is
the pointwise filter; `delOk` is the per-file deletion-success oracle
(`false`: `unlinkSync` threw and the file is left, the loop continues). -/
def cleanOrphanedMedia (system : String) (rows : List ScanRow)
    (delOk : String → Bool) (fs : Fs) : Fs :=
  let valid := validAssetPaths rows
  fs.filter (fun kv => !(sweepShouldDelete system valid kv.1 && delOk kv.1))

/- Section 5: the two-level scheduler's partition queue (`globalStatus`,
`addToSyncQueue`, `finishCurrentSystem`). The ring of log lines and the
progress counter are omitted: no claim observes them. Dispatch is modelled
atomically: `finishCurrentSystem`'s debounced start of the next queued
partition is the part of `processSystemSync` that claims observe, namely the
assignment of `runningSystem` and the reset of `isStopping`. -/

structure SchedTask where
  system : String
  options : Option OptIn
deriving DecidableEq, Repr

structure SchedState where
  runningSystem : Option String
  pendingQueue : List SchedTask
  isStopping : Bool
deriving DecidableEq, Repr

def initSchedState : SchedState := ⟨none, [], false⟩

/-- `addToSyncQueue`: duplicate of the running partition or of a queued one
is rejected (`success: false`); otherwise start immediately when idle, else
append to the FIFO queue. -/
def addToSyncQueue (system : String) (options : Option OptIn)
    (st : SchedState) : SchedState × Bool :=
  if st.runningSystem = some system then (st, false)
  else if (st.pendingQueue.find? (fun t => t.system = system)).isSome then (st, false)
  else if st.runningSystem = none then
    ({ st with runningSystem := some system, isStopping := false }, true)
  else
    ({ st with pendingQueue := st.pendingQueue ++ [⟨system, options⟩] }, true)

/-- `finishCurrentSystem`: release the slot; unless stopping, dequeue and
start the next pending partition; a stop in progress resets the flag. -/
def finishCurrentSystem (st : SchedState) : SchedState :=
  match st.pendingQueue, st.isStopping with
  | next :: rest, false =>
    { runningSystem := some next.system, pendingQueue := rest, isStopping := false }
  | q, true => { runningSystem := none, pendingQueue := q, isStopping := false }
  | [], false => { runningSystem := none, pendingQueue := [], isStopping := false }

inductive SchedEvent where
  | enqueue (system : String) (options : Option OptIn)
  | finish
deriving DecidableEq

def schedStep (st : SchedState) : SchedEvent → SchedState
  | .enqueue s o => (addToSyncQueue s o st).1
  | .finish => finishCurrentSystem st

def runSched (evs : List SchedEvent) : SchedState :=
  evs.foldl schedStep initSchedState

/- Section 6: the archive composer of the `/api/play-merged` route (server
source): ZIP archives are entry lists in order, `getEntry` finds the first
entry of a name, `addFile` appends. -/

def ARCADE_CORES : List String :=
  ["fbneo", "fbalpha2012", "mame2003", "mame2003_plus", "mame2010",
    "mame2015", "mame", "finalburn_neo"]

structure CatEntry where
  id : Nat
  system : String
  name : String
  filename : String
  path : String
deriving DecidableEq, Repr

abbrev ZipArchive := List (String × ByteSeq)

def zipGetEntry (z : ZipArchive) (n : String) : Option ByteSeq :=
  (z.find? (fun e => e.1 = n)).map (fun e => e.2)

def zipAddFile (z : ZipArchive) (n : String) (d : ByteSeq) : ZipArchive :=
  z ++ [(n, d)]

def zipEntryNames (z : ZipArchive) : List String := z.map (fun e => e.1)

/-- The merge loop: for each source entry absent from the accumulating
package, add it; existing entries take precedence. -/
def mergeZip (base src : ZipArchive) : ZipArchive :=
  src.foldl
    (fun acc e => if (zipGetEntry acc e.1).isSome then acc else zipAddFile acc e.1 e.2)
    base

/-- The running minimum of the `ORDER BY length(filename) ASC LIMIT 1`
scan: keep the shorter filename, the earlier row on ties. -/
def parentPick : Option CatEntry → CatEntry → Option CatEntry
  | none, g => some g
  | some b, g => if g.filename.length < b.filename.length then some g else some b

/-- `SELECT * FROM games WHERE system = ? AND name = ? ORDER BY
length(filename) ASC LIMIT 1`: the first row of minimal filename length
(SQLite leaves the tie order unspecified; the model keeps the earlier row). -/
def findParentGame (db : List CatEntry) (system name : String) : Option CatEntry :=
  (db.filter (fun g => g.system = system ∧ g.name = name)).foldl parentPick none

/-- The arcade branch of `/api/play-merged`: load the child archive (absent
file or parse failure is fatal, `none`), merge the parent archive when a
distinct parent exists and loads (failures skipped), then merge the firmware
archive when configured and loadable (`bios = none` covers a missing
`biosDir`/`bios` config, an absent file, and a parse failure). -/
def composeArcade (game : CatEntry) (db : List CatEntry)
    (loadZip : String → Option ZipArchive) (bios : Option ZipArchive) :
    Option ZipArchive :=
  match loadZip game.path with
  | none => none
  | some child =>
    let parentRes := findParentGame db game.system game.name
    let z1 := match parentRes with
      | some pg =>
        if pg.id ≠ game.id then
          match loadZip pg.path with
          | some pz => mergeZip child pz
          | none => child
        else child
      | none => child
    some (match bios with
      | some bz => mergeZip z1 bz
      | none => z1)

/- Concrete instances used by witnesses and counterexamples. -/

def c3Jeu : Jeu := ⟨"42", NomsField.single (some ⟨none, "Mario Bros"⟩)⟩

def c3Api : ScraperApi :=
  ⟨Except.error (), Except.ok (some c3Jeu), fun _ => Except.ok none⟩

def c5Api : ScraperApi :=
  ⟨Except.ok none, Except.ok none, fun _ => Except.ok none⟩

def c6Gone : Jeu := ⟨"", NomsField.single (some ⟨none, "Good Game"⟩)⟩

def c6Gtwo : Jeu := ⟨"5", NomsField.single (some ⟨none, "Another Game"⟩)⟩

def c6Jeux : List Jeu := [c6Gone, c6Gtwo]

/-- The tier-3 selection as claim C6's sentence words it — the first
non-sentinel element that carries an identifier. Stated from the spec for
comparison against `searchByText`, which instead takes the first element
with a truthy non-sentinel *name* and fails outright when that element
lacks an identifier. -/
def specTier3FirstValid (jeux : List Jeu) : Option Jeu :=
  jeux.find? (fun g =>
    g.id != "" && !(strStartsWith (jsToUpper (getLocalizedText g.noms)) NOTGAME_PREFIX))

def c9Row : ScanRow :=
  ⟨"a.zip", "A", "d", "0", "", "", "", "", none, none,
    some "nes/covers/a.png", none, none⟩

def c9Fs : Fs := [("nes/covers/a.png", [1]), ("nes/covers/.hidden", [2])]

def c2ScrapeData : ScraperData :=
  ⟨"Game A", "A nice game", "", "", "", "", "0",
    some "http://x/a.png", none, none, some "http://x/m.png", none⟩

def c2Net : String → Option ByteSeq := fun u =>
  if u = "http://x/a.png" ∨ u = "http://x/m.png" then some [7] else none

def c4Entry : CatEntry := ⟨1, "mame", "KOF", "kof97.zip", "mame/kof97.zip"⟩

def c4Db : List CatEntry := [c4Entry]

def c4Child : ZipArchive := [("A", [1]), ("B", [2])]

def c4Parent : ZipArchive := [("B", [9]), ("C", [3])]

def c4Load : String → Option ZipArchive := fun p =>
  if p = "mame/kof97.zip" then some c4Child else none

/-- A path holds a present, non-empty file. -/
def nonemptyAt (fs : Fs) (p : String) : Prop :=
  ∃ c, fsLookup fs p = some c ∧ c ≠ []

/-- A truthy URL whose download succeeds with non-empty content. -/
def urlOk (net : String → Option ByteSeq) (s : String) : Prop :=
  s ≠ "" ∧ ∃ c, net s = some c ∧ c ≠ []

/-- The field carries a URL and that URL downloads successfully. -/
def reqUrl (net : String → Option ByteSeq) (u : Option String) : Prop :=
  ∃ s, u = some s ∧ urlOk net s

/-- Whatever URL the field carries downloads successfully. -/
def optUrl (net : String → Option ByteSeq) (u : Option String) : Prop :=
  ∀ s, u = some s → urlOk net s

/-- A scrape hit complete for the enabled categories: a real synopsis when
`syncInfo`, and a working asset URL for each enabled asset category (plus
working screenshots when images are on, since that download shares the
pipeline). -/
def scrapeComplete (ops : SyncOps) (net : String → Option ByteSeq)
    (d : ScraperData) : Prop :=
  (ops.syncInfo = true → d.desc ≠ "" ∧ d.desc ≠ NO_DESC) ∧
  (ops.syncImages = true → reqUrl net d.boxArtUrl ∧ optUrl net d.screenUrl) ∧
  (ops.syncVideo = true → reqUrl net d.videoUrl) ∧
  (ops.syncMarquees = true → reqUrl net d.marqueeUrl) ∧
  (ops.syncBoxArt = true → reqUrl net d.boxTextureUrl)

/-- Dedup-cache sanity: every registered local copy is either gone (a stale
entry, degraded to a miss) or a present non-empty file. -/
def libOk (st : MediaState) : Prop :=
  ∀ url p, libLookup st.lib url = some p →
    fsLookup st.fs p = none ∨ nonemptyAt st.fs p

def c7Net : String → Option ByteSeq := fun u =>
  if u = "http://x/img.png" then some [1, 2, 3] else none

/- Section 7: theorems. Shared helper lemmas first, then one theorem per
claim (with its witness or counterexample). -/

theorem levelOne_fst_none (filename : String) (romSize : Nat)
    (md5res : Except Unit String) (t1 : Except Unit (Option Jeu))
    (ilf : Bool) (h : tryJeuInfosMD5 t1 filename = none) :
    (levelOne filename romSize md5res t1 ilf).1 = none := by
  unfold levelOne
  split
  · cases md5res <;> simp [h]
  · rfl

theorem levelOne_tiers (filename : String) (romSize : Nat)
    (md5res : Except Unit String) (t1 : Except Unit (Option Jeu)) (ilf : Bool) :
    (levelOne filename romSize md5res t1 ilf).2.1 = [] ∨
      (levelOne filename romSize md5res t1 ilf).2.1 = [ScrapeTier.md5Query] := by
  unfold levelOne
  split
  · cases md5res <;> simp
  · simp

/-- The cascade after a passed credential check, a known system id, a
successful stat, and a tier-1 miss: the outcome is `levelsTwoThree` with the
level-1 tier prefix. -/
theorem fetchGameInfo_after_l1_miss (ss : SSConfig) (system filename systemId : String)
    (fsOracle : FileOracle) (api : ScraperApi) (n : Nat)
    (hid : ss.devId ≠ "") (hpw : ss.devPassword ≠ "")
    (hstat : fsOracle.stat = .ok n)
    (ht1 : tryJeuInfosMD5 api.t1 filename = none) :
    ∃ tiers hashed, (tiers = [] ∨ tiers = [ScrapeTier.md5Query]) ∧
      fetchGameInfo (some ss) system filename (some systemId) fsOracle api =
        levelsTwoThree system filename systemId api tiers hashed := by
  have hcond : ¬ (ss.devId = "" ∨ ss.devPassword = "") := by
    intro h; rcases h with h | h <;> [exact hid h; exact hpw h]
  set ilf := LARGE_FILE_EXTS.contains (jsToLower (extname filename)) with hilf
  refine ⟨(levelOne filename n fsOracle.md5 api.t1 ilf).2.1,
    (levelOne filename n fsOracle.md5 api.t1 ilf).2.2, levelOne_tiers _ _ _ _ _, ?_⟩
  have hfst := levelOne_fst_none filename n fsOracle.md5 api.t1 ilf ht1
  simp only [fetchGameInfo, if_neg hcond, hstat]
  rcases hE : levelOne filename n fsOracle.md5 api.t1 ilf with ⟨o, tiers, hashed⟩
  rw [hE] at hfst
  simp only at hfst
  subst hfst
  simp [hE]

/-- Claim C10: with the lookup-service credentials unset (no config object, or
an empty `devId` or `devPassword`), `fetchGameInfo` returns null at once: no
lookup-service query is issued, the ROM file is neither statted nor read. -/
theorem fetchGameInfo_credential_guard (cfg : Option SSConfig)
    (system filename : String) (sid : Option String)
    (fsOracle : FileOracle) (api : ScraperApi)
    (h : cfg = none ∨ ∃ ss, cfg = some ss ∧ (ss.devId = "" ∨ ss.devPassword = "")) :
    fetchGameInfo cfg system filename sid fsOracle api =
      ⟨none, [], false, false⟩ := by
  rcases h with rfl | ⟨ss, rfl, hss⟩
  · rfl
  · simp only [fetchGameInfo, if_pos hss]

theorem fetchGameInfo_credential_guard_witness :
    fetchGameInfo (some ⟨"", "pw"⟩) "nes" "mario.zip" (some "3")
        ⟨Except.ok 10, Except.ok "d41d8cd9"⟩
        ⟨Except.ok none, Except.ok none, fun _ => Except.ok none⟩ =
      ⟨none, [], false, false⟩ :=
  fetchGameInfo_credential_guard _ _ _ _ _ _ (Or.inr ⟨_, rfl, Or.inl rfl⟩)

/-- Claim C3: when the tier-2 (filename-exact) query validates to a hit and
tier 1 misses — by transport error, by an invalid response, or because no
MD5 query was sent — the resolver returns the tier-2 result, never null, and
issues no tier-3 free-text query; moreover each tier treats a transport
error as a caught miss that lets the cascade continue. -/
theorem fetchGameInfo_tier2_fallback (ss : SSConfig)
    (system filename systemId : String) (fsOracle : FileOracle)
    (api : ScraperApi) (n : Nat) (r : MatchResult)
    (hid : ss.devId ≠ "") (hpw : ss.devPassword ≠ "")
    (hstat : fsOracle.stat = .ok n)
    (ht1 : tryJeuInfosMD5 api.t1 filename = none)
    (ht2 : tryJeuInfosFilename api.t2 (getRomStem filename) = some r) :
    (fetchGameInfo (some ss) system filename (some systemId) fsOracle api).result
        = some r ∧
    (fetchGameInfo (some ss) system filename (some systemId) fsOracle api).result
        ≠ none ∧
    ScrapeTier.textQuery ∉
      (fetchGameInfo (some ss) system filename (some systemId) fsOracle api).tiersIssued ∧
    (∀ (e : Unit) (fn : String), tryJeuInfosMD5 (Except.error e) fn = none) ∧
    (∀ (e : Unit) (fn : String), tryJeuInfosFilename (Except.error e) fn = none) ∧
    (∀ (e : Unit) (fn : String), searchByText (Except.error e) fn = none) := by
  obtain ⟨tiers, hashed, htiers, heq⟩ :=
    fetchGameInfo_after_l1_miss ss system filename systemId fsOracle api n
      hid hpw hstat ht1
  rw [heq]
  unfold levelsTwoThree
  rw [ht2]
  refine ⟨rfl, by simp, ?_, fun e fn => rfl, fun e fn => rfl, fun e fn => rfl⟩
  rcases htiers with rfl | rfl <;> simp

theorem fetchGameInfo_tier2_fallback_witness :
    (fetchGameInfo (some ⟨"id", "pw"⟩) "nes" "mario.zip" (some "3")
        ⟨Except.ok 10, Except.ok "d41d8cd9"⟩ c3Api).result
        = some ⟨c3Jeu, getRomStem "mario.zip"⟩ ∧
    (fetchGameInfo (some ⟨"id", "pw"⟩) "nes" "mario.zip" (some "3")
        ⟨Except.ok 10, Except.ok "d41d8cd9"⟩ c3Api).result ≠ none ∧
    ScrapeTier.textQuery ∉
      (fetchGameInfo (some ⟨"id", "pw"⟩) "nes" "mario.zip" (some "3")
        ⟨Except.ok 10, Except.ok "d41d8cd9"⟩ c3Api).tiersIssued ∧
    (∀ (e : Unit) (fn : String), tryJeuInfosMD5 (Except.error e) fn = none) ∧
    (∀ (e : Unit) (fn : String), tryJeuInfosFilename (Except.error e) fn = none) ∧
    (∀ (e : Unit) (fn : String), searchByText (Except.error e) fn = none) :=
  fetchGameInfo_tier2_fallback ⟨"id", "pw"⟩ "nes" "mario.zip" "3"
    ⟨Except.ok 10, Except.ok "d41d8cd9"⟩ c3Api 10 ⟨c3Jeu, getRomStem "mario.zip"⟩
    (by decide) (by decide) rfl rfl rfl

/-- Claim C5: for an arcade-classified partition (system id on the arcade
allow-list or `arcade`/`mame` in the partition name) or a cleaned filename
shorter than 4 characters, a tier-2 miss ends the cascade: the resolver
returns null and never issues the tier-3 free-text query. -/
theorem fetchGameInfo_no_tier3_for_arcade (ss : SSConfig)
    (system filename systemId : String) (fsOracle : FileOracle)
    (api : ScraperApi) (n : Nat)
    (hid : ss.devId ≠ "") (hpw : ss.devPassword ≠ "")
    (hstat : fsOracle.stat = .ok n)
    (ht1 : tryJeuInfosMD5 api.t1 filename = none)
    (ht2 : tryJeuInfosFilename api.t2 (getRomStem filename) = none)
    (hcls : isArcadeSystem systemId system = true ∨ (cleanRomName filename).length < 4) :
    (fetchGameInfo (some ss) system filename (some systemId) fsOracle api).result
        = none ∧
    ScrapeTier.textQuery ∉
      (fetchGameInfo (some ss) system filename (some systemId) fsOracle api).tiersIssued := by
  obtain ⟨tiers, hashed, htiers, heq⟩ :=
    fetchGameInfo_after_l1_miss ss system filename systemId fsOracle api n
      hid hpw hstat ht1
  rw [heq]
  unfold levelsTwoThree
  rw [ht2]
  rcases hcls with harc | hshort
  · rw [if_pos harc]
    exact ⟨rfl, by rcases htiers with rfl | rfl <;> simp⟩
  · by_cases harc : isArcadeSystem systemId system = true
    · rw [if_pos harc]
      exact ⟨rfl, by rcases htiers with rfl | rfl <;> simp⟩
    · rw [if_neg harc, if_pos hshort]
      exact ⟨rfl, by rcases htiers with rfl | rfl <;> simp⟩

theorem fetchGameInfo_no_tier3_for_arcade_witness :
    (fetchGameInfo (some ⟨"id", "pw"⟩) "fbneo-roms" "kof97.zip" (some "75")
        ⟨Except.ok 10, Except.ok "d41d8cd9"⟩ c5Api).result = none ∧
    ScrapeTier.textQuery ∉
      (fetchGameInfo (some ⟨"id", "pw"⟩) "fbneo-roms" "kof97.zip" (some "75")
        ⟨Except.ok 10, Except.ok "d41d8cd9"⟩ c5Api).tiersIssued :=
  fetchGameInfo_no_tier3_for_arcade ⟨"id", "pw"⟩ "fbneo-roms" "kof97.zip" "75"
    ⟨Except.ok 10, Except.ok "d41d8cd9"⟩ c5Api 10
    (by decide) (by decide) rfl rfl rfl (Or.inl (by decide))

/-- Claim C6, counterexample to the tier-3 selection clause as stated: in a
result list whose first truthy-named element lacks an identifier,
`searchByText` returns a miss even though a later element is non-sentinel
and carries an identifier (the element the claim says is selected). -/
theorem tier3_selection_counterexample :
    searchByText (Except.ok (some c6Jeux)) "file" = none ∧
    specTier3FirstValid c6Jeux = some c6Gtwo ∧
    c6Gtwo ∈ c6Jeux ∧ c6Gtwo.id ≠ "" := by
  refine ⟨rfl, rfl, by decide, by decide⟩

/-- Claim C6, amended: a response is accepted as a hit only if it carries a
non-empty identifier and its localized title does not start with the
`ZZZ(NOTGAME)` sentinel (case-folded); any invalid response is a miss that
lets the cascade continue past the tier. For tier-3 result lists the element
considered is the *first with a non-empty, non-sentinel title*, and it is
selected only if it also carries an identifier — otherwise the whole search
is a miss (later elements are not considered). -/
theorem response_validation (d : Option Jeu) (fn : String) (jeux : List Jeu) :
    (isValidGame d = true →
      ∃ jeu, d = some jeu ∧ jeu.id ≠ "" ∧
        strStartsWith (jsToUpper (getLocalizedText jeu.noms)) NOTGAME_PREFIX = false) ∧
    (isValidGame d = false →
      tryJeuInfosMD5 (Except.ok d) fn = none ∧
      tryJeuInfosFilename (Except.ok d) fn = none) ∧
    (searchByText (Except.ok (some jeux)) fn =
      match tier3ValidPick jeux with
      | some g => if g.id ≠ "" then some ⟨g, fn⟩ else none
      | none => none) := by
  refine ⟨?_, ?_, ?_⟩
  · intro hv
    match d with
    | none => simp [isValidGame] at hv
    | some jeu =>
      refine ⟨jeu, rfl, ?_, ?_⟩
      · intro hid
        simp [isValidGame, hid] at hv
      · by_cases hid : jeu.id = ""
        · simp [isValidGame, hid] at hv
        · simp only [isValidGame, if_pos hid] at hv
          by_cases hname : getLocalizedText jeu.noms = ""
          · rw [hname]
            decide
          · by_cases hsw : strStartsWith (jsToUpper (getLocalizedText jeu.noms)) NOTGAME_PREFIX = true
            · rw [if_pos ⟨hname, hsw⟩] at hv
              exact absurd hv (by simp)
            · simpa using hsw
  · intro hv
    constructor <;> simp [tryJeuInfosMD5, tryJeuInfosFilename, hv]
  · match jeux with
    | [] => rfl
    | g :: l => simp [searchByText]

theorem addToSyncQueue_ignored (st : SchedState) (s : String) (o : Option OptIn)
    (h : st.runningSystem = some s ∨ s ∈ st.pendingQueue.map SchedTask.system) :
    addToSyncQueue s o st = (st, false) := by
  unfold addToSyncQueue
  by_cases hrun : st.runningSystem = some s
  · rw [if_pos hrun]
  · rcases h with h | h
    · exact absurd h hrun
    · rw [if_neg hrun]
      obtain ⟨task, htask, hsys⟩ := List.mem_map.mp h
      have : (st.pendingQueue.find? (fun t => t.system = s)).isSome := by
        rw [List.find?_isSome]
        exact ⟨task, htask, by simp [hsys]⟩
      rw [if_pos this]

/-- The scheduler's queue invariant: the running partition is never also
pending, and no partition is pending twice. -/
def schedOk (st : SchedState) : Prop :=
  (∀ t, st.runningSystem = some t → ∀ task ∈ st.pendingQueue, task.system ≠ t) ∧
  st.pendingQueue.Pairwise (fun a b => a.system ≠ b.system)

theorem schedOk_step (st : SchedState) (e : SchedEvent) (h : schedOk st) :
    schedOk (schedStep st e) := by
  obtain ⟨h1, h2⟩ := h
  cases e with
  | finish =>
    show schedOk (finishCurrentSystem st)
    unfold finishCurrentSystem
    rcases hq : st.pendingQueue with _ | ⟨next, rest⟩ <;> rcases hstop : st.isStopping
    · exact ⟨fun t ht task htask => by simp at htask, by simp⟩
    · exact ⟨fun t ht task htask => by simp at ht, by rw [hq] at h2; exact h2⟩
    · refine ⟨fun t ht task htask => ?_, ?_⟩
      · simp only [SchedState.mk.injEq] at ht ⊢
        cases ht
        rw [hq] at h2
        exact (ne_comm.mp ((List.pairwise_cons.mp h2).1 task htask))
      · rw [hq] at h2
        exact (List.pairwise_cons.mp h2).2
    · exact ⟨fun t ht task htask => by simp at ht, by rw [hq] at h2; exact h2⟩
  | enqueue s o =>
    show schedOk (addToSyncQueue s o st).1
    unfold addToSyncQueue
    by_cases hrun : st.runningSystem = some s
    · rw [if_pos hrun]; exact ⟨h1, h2⟩
    · rw [if_neg hrun]
      by_cases hfind : (st.pendingQueue.find? (fun t => t.system = s)).isSome
      · rw [if_pos hfind]; exact ⟨h1, h2⟩
      · rw [if_neg hfind]
        have hnone : st.pendingQueue.find? (fun t => t.system = s) = none := by
          rcases hE : st.pendingQueue.find? (fun t => t.system = s) with _ | v
          · exact hE
          · exact absurd (by rw [hE]; rfl) hfind
        have hnotin : ∀ task ∈ st.pendingQueue, task.system ≠ s := by
          intro task htask
          have := List.find?_eq_none.mp hnone task htask
          simpa using this
        by_cases hidle : st.runningSystem = none
        · rw [if_pos hidle]
          refine ⟨fun t ht task htask => ?_, h2⟩
          simp only at ht
          cases ht
          exact hnotin task htask
        · rw [if_neg hidle]
          refine ⟨fun t ht task htask => ?_, ?_⟩
          · simp only at ht htask
            rcases List.mem_append.mp htask with hmem | hmem
            · exact h1 t ht task hmem
            · simp only [List.mem_singleton] at hmem
              subst hmem
              intro hc
              have hs : s = t := hc
              rw [← hs] at ht
              exact hrun ht
          · simp only
            rw [List.pairwise_append]
            refine ⟨h2, by simp, ?_⟩
            intro a ha b hb
            simp only [List.mem_singleton] at hb
            subst hb
            exact hnotin a ha

theorem schedOk_run (evs : List SchedEvent) : schedOk (runSched evs) := by
  have hinit : schedOk initSchedState :=
    ⟨fun t ht task htask => by simp [initSchedState] at htask, List.Pairwise.nil⟩
  unfold runSched
  induction evs using List.reverseRecOn with
  | nil => exact hinit
  | append_singleton l e ih =>
    rw [List.foldl_append]
    exact schedOk_step _ e ih

/-- Claim C1: over every event sequence of enqueues and batch completions
from process start, the scheduler designates at most one running partition;
the running partition is never also pending and no partition is pending
twice; and an enqueue for the running partition or for an already-queued one
returns an unsuccessful (`ignored`) result and leaves the state — running
partition and pending queue — unchanged. -/
theorem scheduler_mutual_exclusion (evs : List SchedEvent) (s : String)
    (o : Option OptIn)
    (hdup : (runSched evs).runningSystem = some s ∨
      s ∈ (runSched evs).pendingQueue.map SchedTask.system) :
    (∀ a b, (runSched evs).runningSystem = some a →
      (runSched evs).runningSystem = some b → a = b) ∧
    (∀ t, (runSched evs).runningSystem = some t →
      ∀ task ∈ (runSched evs).pendingQueue, task.system ≠ t) ∧
    (runSched evs).pendingQueue.Pairwise (fun a b => a.system ≠ b.system) ∧
    addToSyncQueue s o (runSched evs) = (runSched evs, false) := by
  obtain ⟨h1, h2⟩ := schedOk_run evs
  refine ⟨?_, h1, h2, addToSyncQueue_ignored _ _ _ hdup⟩
  intro a b ha hb
  rw [ha] at hb
  exact (Option.some.injEq _ _).mp hb

theorem scheduler_mutual_exclusion_witness :
    (∀ a b, (runSched [SchedEvent.enqueue "nes" none]).runningSystem = some a →
      (runSched [SchedEvent.enqueue "nes" none]).runningSystem = some b → a = b) ∧
    (∀ t, (runSched [SchedEvent.enqueue "nes" none]).runningSystem = some t →
      ∀ task ∈ (runSched [SchedEvent.enqueue "nes" none]).pendingQueue,
        task.system ≠ t) ∧
    (runSched [SchedEvent.enqueue "nes" none]).pendingQueue.Pairwise
      (fun a b => a.system ≠ b.system) ∧
    addToSyncQueue "nes" none (runSched [SchedEvent.enqueue "nes" none]) =
      (runSched [SchedEvent.enqueue "nes" none], false) :=
  scheduler_mutual_exclusion [SchedEvent.enqueue "nes" none] "nes" none
    (Or.inl (by decide))

theorem zipGetEntry_append (z1 z2 : ZipArchive) (n : String) :
    zipGetEntry (z1 ++ z2) n = ((zipGetEntry z1 n).or (zipGetEntry z2 n)) := by
  unfold zipGetEntry
  rw [List.find?_append]
  rcases hE : List.find? (fun e => e.1 = n) z1 with _ | v <;> simp [hE]

theorem zipGetEntry_cons (e : String × ByteSeq) (z : ZipArchive) (n : String) :
    zipGetEntry (e :: z) n = if e.1 = n then some e.2 else zipGetEntry z n := by
  unfold zipGetEntry
  by_cases h : e.1 = n
  · rw [List.find?_cons_of_pos _ (by simp [h]), if_pos h]
    rfl
  · rw [List.find?_cons_of_neg _ (by simp [h]), if_neg h]

/-- The merge loop resolves every name to the base's entry when present, else
to the source's first entry of that name. -/
theorem mergeZip_getEntry (src : ZipArchive) :
    ∀ (base : ZipArchive) (n : String),
      zipGetEntry (mergeZip base src) n =
        match zipGetEntry base n with
        | some d => some d
        | none => zipGetEntry src n := by
  induction src with
  | nil =>
    intro base n
    show zipGetEntry base n = _
    rcases h : zipGetEntry base n with _ | d <;> simp [h, zipGetEntry]
  | cons e src ih =>
    intro base n
    have hstep : mergeZip base (e :: src) =
        mergeZip (if (zipGetEntry base e.1).isSome then base
          else zipAddFile base e.1 e.2) src := by
      simp [mergeZip]
    rw [hstep, ih, zipGetEntry_cons]
    by_cases hkey : (zipGetEntry base e.1).isSome
    · rw [if_pos hkey]
      rcases hbase : zipGetEntry base n with _ | d
      · have hen : ¬ e.1 = n := by
          intro hc
          rw [hc, hbase] at hkey
          simp at hkey
        simp [hbase, hen]
      · simp [hbase]
    · rw [if_neg hkey]
      rw [show zipAddFile base e.1 e.2 = base ++ [(e.1, e.2)] from rfl,
        zipGetEntry_append]
      rcases hbase : zipGetEntry base n with _ | d
      · simp only [hbase, Option.none_or]
        by_cases hen : e.1 = n
        · subst hen
          have h1 : zipGetEntry [(e.1, e.2)] e.1 = some e.2 := by
            simp [zipGetEntry]
          simp [h1]
        · have h1 : zipGetEntry [(e.1, e.2)] n = none := by
            simp [zipGetEntry, hen]
          simp [h1, hen]
      · simp [hbase]

theorem mem_zipEntryNames (z : ZipArchive) (n : String) :
    n ∈ zipEntryNames z ↔ (zipGetEntry z n).isSome := by
  unfold zipEntryNames zipGetEntry
  constructor
  · intro h
    obtain ⟨e, he, rfl⟩ := List.mem_map.mp h
    have hs : (List.find? (fun e2 => e2.1 = e.1) z).isSome :=
      List.find?_isSome.mpr ⟨e, he, by simp⟩
    rcases hE : List.find? (fun e2 => e2.1 = e.1) z with _ | v
    · rw [hE] at hs; simp at hs
    · rw [hE]; rfl
  · intro h
    rcases hE : List.find? (fun e2 => e2.1 = n) z with _ | v
    · rw [hE] at h; simp at h
    · have hv := List.find?_some hE
      have hmem := List.mem_of_find?_eq_some hE
      simp only [decide_eq_true_eq] at hv
      exact List.mem_map.mpr ⟨v, hmem, hv⟩

theorem parentPick_spec (a : Option CatEntry) (g : CatEntry) :
    ∃ r, parentPick a g = some r ∧ r.filename.length ≤ g.filename.length ∧
      (r = g ∨ a = some r) ∧
      (∀ a0, a = some a0 → r.filename.length ≤ a0.filename.length) := by
  rcases a with _ | b
  · exact ⟨g, rfl, le_refl _, Or.inl rfl, fun a0 h0 => by cases h0⟩
  · by_cases hlt : g.filename.length < b.filename.length
    · exact ⟨g, by simp [parentPick, hlt], le_refl _, Or.inl rfl,
        fun a0 h0 => by cases h0; exact le_of_lt hlt⟩
    · refine ⟨b, by simp [parentPick, hlt], not_lt.mp hlt, Or.inr rfl,
        fun a0 h0 => by cases h0; exact le_refl _⟩

/-- The running minimum of `findParentGame`'s fold. -/
theorem findParent_fold_spec (l : List CatEntry) :
    ∀ acc : Option CatEntry,
      match l.foldl parentPick acc with
      | none => acc = none ∧ l = []
      | some b =>
        (acc = some b ∨ b ∈ l) ∧
        (∀ g ∈ l, b.filename.length ≤ g.filename.length) ∧
        (∀ a, acc = some a → b.filename.length ≤ a.filename.length) := by
  induction l with
  | nil =>
    intro acc
    rcases acc with _ | a
    · exact ⟨rfl, rfl⟩
    · exact ⟨Or.inl rfl, fun g hg => absurd hg (List.not_mem_nil _),
        fun a' ha' => by cases ha'; exact le_refl _⟩
  | cons g l ih =>
    intro acc
    rw [List.foldl_cons]
    obtain ⟨r, hr, hrle, hror, hrup⟩ := parentPick_spec acc g
    have hthis := ih (parentPick acc g)
    rw [hr] at hthis ⊢
    rcases hres : List.foldl parentPick (some r) l with _ | b
    · rw [hres] at hthis
      exact absurd hthis.1 (by simp)
    · rw [hres] at hthis
      obtain ⟨hmem, hmin, hup⟩ := hthis
      refine ⟨?_, ?_, ?_⟩
      · rcases hmem with hm | hm
        · have hrb : r = b := Option.some.inj hm
          subst hrb
          rcases hror with rfl | hacc
          · exact Or.inr (List.mem_cons_self _ _)
          · exact Or.inl hacc
        · exact Or.inr (List.mem_cons_of_mem _ hm)
      · intro x hx
        rcases List.mem_cons.mp hx with rfl | hx
        · exact le_trans (hup r rfl) hrle
        · exact hmin x hx
      · intro a0 ha0
        exact le_trans (hup r rfl) (hrup a0 ha0)

/-- Claim C4: merging a parent archive into a child package is additive — the
result resolves each entry name to the child's bytes when the child has it,
else to the parent's, so the name set is exactly the union and collisions
keep the child's data; the parent row is a catalog entry of the same
partition and title with minimal filename length; and when the selected
parent is the requested entry itself, no parent merge happens (only the
firmware merge, when configured). -/
theorem archive_merge (child parent : ZipArchive) (nm : String)
    (db : List CatEntry) (game pg : CatEntry)
    (loadZip : String → Option ZipArchive) (bios : Option ZipArchive)
    (hfind : findParentGame db game.system game.name = some pg)
    (hid : pg.id = game.id) :
    (zipGetEntry (mergeZip child parent) nm =
      match zipGetEntry child nm with
      | some d => some d
      | none => zipGetEntry parent nm) ∧
    (nm ∈ zipEntryNames (mergeZip child parent) ↔
      nm ∈ zipEntryNames child ∨ nm ∈ zipEntryNames parent) ∧
    (pg ∈ db ∧ pg.system = game.system ∧ pg.name = game.name ∧
      ∀ g ∈ db, g.system = game.system → g.name = game.name →
        pg.filename.length ≤ g.filename.length) ∧
    (composeArcade game db loadZip bios =
      (loadZip game.path).map (fun c =>
        match bios with
        | some bz => mergeZip c bz
        | none => c)) := by
  have hmain := mergeZip_getEntry parent child nm
  refine ⟨hmain, ?_, ?_, ?_⟩
  · rw [mem_zipEntryNames, mem_zipEntryNames, mem_zipEntryNames, hmain]
    rcases h1 : zipGetEntry child nm with _ | d <;> simp
  · have hspec := findParent_fold_spec
      (db.filter (fun g => g.system = game.system ∧ g.name = game.name)) none
    unfold findParentGame at hfind
    rw [hfind] at hspec
    obtain ⟨hmem, hmin, -⟩ := hspec
    rcases hmem with hm | hm
    · simp at hm
    · obtain ⟨hdb, hcond⟩ := List.mem_filter.mp hm
      simp only [decide_eq_true_eq] at hcond
      refine ⟨hdb, hcond.1, hcond.2, ?_⟩
      intro g hg hgs hgn
      exact hmin g (List.mem_filter.mpr ⟨hg, by simp [hgs, hgn]⟩)
  · rcases hload : loadZip game.path with _ | childz <;>
      rcases bios with _ | bz <;>
      simp [composeArcade, hload, hfind, hid]

theorem archive_merge_witness :
    (zipGetEntry (mergeZip c4Child c4Parent) "B" =
      match zipGetEntry c4Child "B" with
      | some d => some d
      | none => zipGetEntry c4Parent "B") ∧
    ("B" ∈ zipEntryNames (mergeZip c4Child c4Parent) ↔
      "B" ∈ zipEntryNames c4Child ∨ "B" ∈ zipEntryNames c4Parent) ∧
    (c4Entry ∈ c4Db ∧ c4Entry.system = c4Entry.system ∧
      c4Entry.name = c4Entry.name ∧
      ∀ g ∈ c4Db, g.system = c4Entry.system → g.name = c4Entry.name →
        c4Entry.filename.length ≤ g.filename.length) ∧
    (composeArcade c4Entry c4Db c4Load none =
      (c4Load c4Entry.path).map (fun c =>
        match (none : Option ZipArchive) with
        | some bz => mergeZip c bz
        | none => c)) :=
  archive_merge c4Child c4Parent "B" c4Db c4Entry c4Entry c4Load none
    (by decide) rfl

theorem fsLookup_fsErase_self (fs : Fs) (p : String) :
    fsLookup (fsErase fs p) p = none := by
  unfold fsLookup fsErase
  rcases hE : List.find? (fun kv => kv.1 = p) (fs.filter (fun kv => kv.1 ≠ p)) with _ | v
  · rw [hE]
    rfl
  · have hv := List.find?_some hE
    have hmem := List.mem_of_find?_eq_some hE
    have := (List.mem_filter.mp hmem).2
    simp only [decide_eq_true_eq] at hv
    simp only [ne_eq, decide_not, Bool.not_eq_true', decide_eq_false_iff_not] at this
    exact absurd hv this

theorem fsErase_eq_of_lookup_none (fs : Fs) (p : String)
    (h : fsLookup fs p = none) : fsErase fs p = fs := by
  unfold fsLookup at h
  have hfind : List.find? (fun kv => kv.1 = p) fs = none := by
    rcases hE : List.find? (fun kv => kv.1 = p) fs with _ | v
    · exact hE
    · rw [hE] at h; simp at h
  have hall := List.find?_eq_none.mp hfind
  unfold fsErase
  apply List.filter_eq_self.mpr
  intro kv hkv
  have := hall kv hkv
  simpa using this

theorem fsLookup_fsWrite_self (fs : Fs) (p : String) (c : ByteSeq) :
    fsLookup (fsWrite fs p c) p = some c := by
  unfold fsLookup fsWrite
  rw [List.find?_cons_of_pos _ (by simp)]
  rfl

theorem fsLookup_fsErase_ne (fs : Fs) (p q : String) (h : q ≠ p) :
    fsLookup (fsErase fs p) q = fsLookup fs q := by
  unfold fsLookup fsErase
  induction fs with
  | nil => rfl
  | cons kv fs ih =>
    rw [List.filter_cons]
    by_cases hkvp : kv.1 = p
    · have hcond : (decide (kv.1 ≠ p)) = false := by simp [hkvp]
      rw [hcond]
      simp only [Bool.false_eq_true, if_false]
      have hkvq : ¬ (kv.1 = q) := by rw [hkvp]; exact fun hc => h hc.symm
      rw [List.find?_cons_of_neg _ (by simp [hkvq])]
      exact ih
    · have hcond : (decide (kv.1 ≠ p)) = true := by simp [hkvp]
      rw [hcond]
      simp only [if_true]
      by_cases hkvq : kv.1 = q
      · rw [List.find?_cons_of_pos _ (by simp [hkvq]),
          List.find?_cons_of_pos _ (by simp [hkvq])]
      · rw [List.find?_cons_of_neg _ (by simp [hkvq]),
          List.find?_cons_of_neg _ (by simp [hkvq])]
        exact ih

theorem fsLookup_fsWrite_ne (fs : Fs) (p q : String) (c : ByteSeq) (h : q ≠ p) :
    fsLookup (fsWrite fs p c) q = fsLookup fs q := by
  unfold fsWrite
  show fsLookup ((p, c) :: fsErase fs p) q = _
  unfold fsLookup
  rw [List.find?_cons_of_neg _ (by simp only [decide_eq_true_eq]; exact Ne.symm h)]
  exact fsLookup_fsErase_ne fs p q h

theorem libLookup_libInsert_self (lib : MediaLib) (url p : String) :
    libLookup (libInsert lib url p) url = some p := by
  unfold libLookup libInsert
  rw [List.find?_cons_of_pos _ (by simp)]
  rfl

theorem downloadCore_ne_skipped (url system typ filename : String)
    (net : String → Option ByteSeq) (st : MediaState) :
    (downloadCore url system typ filename net st).2 ≠ DlAction.skipped := by
  unfold downloadCore downloadFetch
  rcases hL : libLookup st.lib url with _ | lp
  · simp only [hL]
    rcases hN : net url with _ | c <;> simp [hN]
  · simp only [hL]
    rcases hS : fsLookup st.fs lp with _ | src
    · simp only [hS]
      rcases hN : net url with _ | c <;> simp [hN]
    · simp [hS]

/-- With `overwrite` set, `downloadMedia` behaves exactly as a fresh run on
the store with the target removed: the pre-existing target file never
influences the outcome. -/
theorem downloadMedia_overwrite_eq (url system typ filename : String)
    (net : String → Option ByteSeq) (st : MediaState) :
    downloadMedia url system typ filename true net st =
      downloadMedia url system typ filename false net
        ⟨fsErase st.fs (joinPath3 system typ filename), st.lib⟩ := by
  unfold downloadMedia
  by_cases hex : (fsLookup st.fs (joinPath3 system typ filename)).isSome
  · simp [hex]
  · have hnone : fsLookup st.fs (joinPath3 system typ filename) = none :=
      Option.not_isSome_iff_eq_none.mp hex
    simp [hnone, fsErase_eq_of_lookup_none st.fs _ hnone]

theorem downloadMedia_on_erased (url system typ filename : String)
    (net : String → Option ByteSeq) (fs : Fs) (lib : MediaLib) :
    downloadMedia url system typ filename false net
        ⟨fsErase fs (joinPath3 system typ filename), lib⟩ =
      downloadCore url system typ filename net
        ⟨fsErase fs (joinPath3 system typ filename), lib⟩ := by
  unfold downloadMedia
  simp [fsLookup_fsErase_self]

/-- Claim C8: a single-item refresh forces `incremental = false` and
`overwrite = true` whatever options the caller supplied; and a download with
`overwrite` set never takes the idempotent skip — the existing target file is
deleted first and the asset re-acquired (hard link or fresh download), so
the outcome is independent of the pre-existing file's state. -/
theorem single_refresh_forces_overwrite (o : Option OptIn)
    (url system typ filename : String) (net : String → Option ByteSeq)
    (st : MediaState) :
    ((singleGameSyncOps o).incremental = false ∧
      (singleGameSyncOps o).overwrite = true) ∧
    downloadMedia url system typ filename true net st =
      downloadMedia url system typ filename false net
        ⟨fsErase st.fs (joinPath3 system typ filename), st.lib⟩ ∧
    (downloadMedia url system typ filename true net st).2 ≠ DlAction.skipped := by
  refine ⟨?_, downloadMedia_overwrite_eq url system typ filename net st, ?_⟩
  · rcases o with _ | oi <;> exact ⟨rfl, rfl⟩
  · rw [downloadMedia_overwrite_eq, downloadMedia_on_erased]
    exact downloadCore_ne_skipped url system typ filename net _

theorem single_refresh_forces_overwrite_witness :
    ((singleGameSyncOps (some ⟨some false, none, none, none, none, some true,
        some false⟩)).incremental = false ∧
      (singleGameSyncOps (some ⟨some false, none, none, none, none, some true,
        some false⟩)).overwrite = true) ∧
    downloadMedia "http://x/a.png" "nes" "covers" "A.png" true c2Net
        ⟨[("nes/covers/A.png", [9])], []⟩ =
      downloadMedia "http://x/a.png" "nes" "covers" "A.png" false c2Net
        ⟨fsErase [("nes/covers/A.png", [9])] (joinPath3 "nes" "covers" "A.png"),
          []⟩ ∧
    (downloadMedia "http://x/a.png" "nes" "covers" "A.png" true c2Net
        ⟨[("nes/covers/A.png", [9])], []⟩).2 ≠ DlAction.skipped :=
  single_refresh_forces_overwrite
    (some ⟨some false, none, none, none, none, some true, some false⟩)
    "http://x/a.png" "nes" "covers" "A.png" c2Net
    ⟨[("nes/covers/A.png", [9])], []⟩

theorem string_append_cancel_left (p c1 c2 : String) (h : p ++ c1 = p ++ c2) :
    c1 = c2 := by
  have hd := congrArg String.data h
  rw [String.data_append, String.data_append] at hd
  have hdc := List.append_cancel_left hd
  cases c1
  cases c2
  exact congrArg String.mk hdc

theorem joinPath3_inj3 (a b c1 c2 : String)
    (h : joinPath3 a b c1 = joinPath3 a b c2) : c1 = c2 :=
  string_append_cancel_left _ _ _ h

/-- Claim C7: two catalog entries resolving to the same asset URL cost one
network download: the first call downloads and registers the URL's local
path in the dedup cache; the second call finds the registration with the
copy still on disk and hard-links it, and both target files hold the same
bytes. -/
theorem media_dedup_single_download (url sys typ fn1 fn2 : String)
    (c : ByteSeq) (net : String → Option ByteSeq) (st0 : MediaState)
    (hnet : net url = some c)
    (hne : fn1 ≠ fn2)
    (hlib : libLookup st0.lib url = none)
    (h1 : fsLookup st0.fs (joinPath3 sys typ fn1) = none)
    (h2 : fsLookup st0.fs (joinPath3 sys typ fn2) = none) :
    (downloadMedia url sys typ fn1 false net st0).2 = DlAction.downloaded ∧
    libLookup (downloadMedia url sys typ fn1 false net st0).1.lib url =
      some (joinPath3 sys typ fn1) ∧
    (downloadMedia url sys typ fn2 false net
      (downloadMedia url sys typ fn1 false net st0).1).2 = DlAction.linked ∧
    fsLookup (downloadMedia url sys typ fn2 false net
      (downloadMedia url sys typ fn1 false net st0).1).1.fs
      (joinPath3 sys typ fn1) = some c ∧
    fsLookup (downloadMedia url sys typ fn2 false net
      (downloadMedia url sys typ fn1 false net st0).1).1.fs
      (joinPath3 sys typ fn2) = some c := by
  have htne : joinPath3 sys typ fn2 ≠ joinPath3 sys typ fn1 := by
    intro hc
    exact hne (joinPath3_inj3 sys typ fn2 fn1 hc).symm
  have hr1 : downloadMedia url sys typ fn1 false net st0 =
      (⟨fsWrite st0.fs (joinPath3 sys typ fn1) c,
        libInsert st0.lib url (joinPath3 sys typ fn1)⟩, DlAction.downloaded) := by
    unfold downloadMedia downloadCore downloadFetch
    simp [h1, hlib, hnet]
  have hfs1 : fsLookup (fsWrite st0.fs (joinPath3 sys typ fn1) c)
      (joinPath3 sys typ fn2) = none := by
    rw [fsLookup_fsWrite_ne _ _ _ _ htne]
    exact h2
  have hlib1 : libLookup (libInsert st0.lib url (joinPath3 sys typ fn1)) url =
      some (joinPath3 sys typ fn1) := libLookup_libInsert_self _ _ _
  have hsrc : fsLookup (fsWrite st0.fs (joinPath3 sys typ fn1) c)
      (joinPath3 sys typ fn1) = some c := fsLookup_fsWrite_self _ _ _
  have hr2 : downloadMedia url sys typ fn2 false net
      (⟨fsWrite st0.fs (joinPath3 sys typ fn1) c,
        libInsert st0.lib url (joinPath3 sys typ fn1)⟩ : MediaState) =
      (⟨fsWrite (fsWrite st0.fs (joinPath3 sys typ fn1) c) (joinPath3 sys typ fn2) c,
        libInsert st0.lib url (joinPath3 sys typ fn1)⟩, DlAction.linked) := by
    unfold downloadMedia downloadCore
    simp [hfs1, hlib1, hsrc]
  rw [hr1]
  simp only
  rw [hr2]
  simp only
  refine ⟨trivial, hlib1, trivial, ?_, ?_⟩
  · rw [fsLookup_fsWrite_ne _ _ _ _ (Ne.symm htne)]
    exact fsLookup_fsWrite_self _ _ _
  · exact fsLookup_fsWrite_self _ _ _

theorem media_dedup_single_download_witness :
    (downloadMedia "http://x/img.png" "nes" "covers" "A.png" false c7Net
      ⟨[], []⟩).2 = DlAction.downloaded ∧
    libLookup (downloadMedia "http://x/img.png" "nes" "covers" "A.png" false
      c7Net ⟨[], []⟩).1.lib "http://x/img.png" =
      some (joinPath3 "nes" "covers" "A.png") ∧
    (downloadMedia "http://x/img.png" "nes" "covers" "B.png" false c7Net
      (downloadMedia "http://x/img.png" "nes" "covers" "A.png" false c7Net
        ⟨[], []⟩).1).2 = DlAction.linked ∧
    fsLookup (downloadMedia "http://x/img.png" "nes" "covers" "B.png" false
      c7Net (downloadMedia "http://x/img.png" "nes" "covers" "A.png" false
        c7Net ⟨[], []⟩).1).1.fs
      (joinPath3 "nes" "covers" "A.png") = some [1, 2, 3] ∧
    fsLookup (downloadMedia "http://x/img.png" "nes" "covers" "B.png" false
      c7Net (downloadMedia "http://x/img.png" "nes" "covers" "A.png" false
        c7Net ⟨[], []⟩).1).1.fs
      (joinPath3 "nes" "covers" "B.png") = some [1, 2, 3] :=
  media_dedup_single_download "http://x/img.png" "nes" "covers" "A.png" "B.png"
    [1, 2, 3] c7Net ⟨[], []⟩ (by decide) (by decide) rfl rfl rfl

/-- Claim C9, counterexample to the sweep-safety sentence as stated: after a
sweep with every deletion succeeding, a dot-prefixed file survives in
`covers` although no asset-path field of any row references it, and the file
`covers/a.png` survives although the covers-corresponding field
(`image_path`) of every row is null — it is referenced only by a
`marquee_path`. -/
theorem sweep_counterexample :
    (("nes/covers/.hidden", [2]) ∈
      cleanOrphanedMedia "nes" [c9Row] (fun _ => true) c9Fs) ∧
    validAssetPaths [c9Row] = ["nes/covers/a.png"] ∧
    (("nes/covers/a.png", [1]) ∈
      cleanOrphanedMedia "nes" [c9Row] (fun _ => true) c9Fs) ∧
    c9Row.image_path = none ∧
    c9Row.marquee_path = some "nes/covers/a.png" := by
  refine ⟨by decide, by decide, by decide, rfl, rfl⟩

/-- Claim C9, amended: after a sweep, every surviving file in a partition's
five tracked asset sub-directories is either dot-prefixed, or its deletion
was attempted and failed, or its catalog-style path is referenced by at
least one of the five asset-path fields (of any category) of a current row;
and a deletion failure on one file has no effect on the treatment of any
other file (the sweep continues). -/
theorem sweep_safety (system : String) (rows : List ScanRow)
    (delOk : String → Bool) (fs : Fs) (k : String) (c : ByteSeq)
    (folder name : String)
    (hmem : (k, c) ∈ cleanOrphanedMedia system rows delOk fs)
    (hf : folder ∈ MEDIA_FOLDERS)
    (hu : underFolder system folder k = some name)
    (hdot : strStartsWith name "." = false)
    (hdel : delOk k = true) :
    (joinPath3 system folder name ∈ validAssetPaths rows) ∧
    (∀ (delOk2 delOk3 : String → Bool) (kx k2 : String) (c2 : ByteSeq),
      (∀ j, j ≠ kx → delOk2 j = delOk3 j) → k2 ≠ kx →
      (((k2, c2) ∈ cleanOrphanedMedia system rows delOk2 fs) ↔
        ((k2, c2) ∈ cleanOrphanedMedia system rows delOk3 fs))) := by
  constructor
  · unfold cleanOrphanedMedia at hmem
    have hcond := (List.mem_filter.mp hmem).2
    simp only [Bool.not_eq_true', Bool.and_eq_false_iff] at hcond
    rcases hcond with hsd | hok
    · unfold sweepShouldDelete at hsd
      rw [List.any_eq_false] at hsd
      have hfold := hsd folder hf
      rw [hu] at hfold
      have h2 : (!strStartsWith name "." &&
          !(validAssetPaths rows).contains (joinPath3 system folder name)) = false :=
        eq_false_of_ne_true hfold
      rcases Bool.and_eq_false_iff.mp h2 with hstart | hcontains
      · simp only [Bool.not_eq_false'] at hstart
        rw [hstart] at hdot
        cases hdot
      · simp only [Bool.not_eq_false'] at hcontains
        simpa using hcontains
    · rw [hok] at hdel
      cases hdel
  · intro delOk2 delOk3 kx k2 c2 hagree hne
    unfold cleanOrphanedMedia
    rw [List.mem_filter, List.mem_filter, hagree k2 hne]

theorem sweep_safety_witness :
    (joinPath3 "nes" "covers" "a.png" ∈ validAssetPaths [c9Row]) ∧
    (∀ (delOk2 delOk3 : String → Bool) (kx k2 : String) (c2 : ByteSeq),
      (∀ j, j ≠ kx → delOk2 j = delOk3 j) → k2 ≠ kx →
      (((k2, c2) ∈ cleanOrphanedMedia "nes" [c9Row] delOk2 c9Fs) ↔
        ((k2, c2) ∈ cleanOrphanedMedia "nes" [c9Row] delOk3 c9Fs))) :=
  sweep_safety "nes" [c9Row] (fun _ => true) c9Fs "nes/covers/a.png" [1]
    "covers" "a.png" (by decide) (by decide) (by decide) (by decide) rfl

/-- Claim C2, counterexample to idempotence as stated: with the default batch
options (`incremental = true`) and no disk change between the runs, a first
run whose metadata lookup misses leaves the placeholder synopsis in the
inserted row, so the second run's `toUpdate` still contains the file. -/
theorem reconciliation_not_idempotent :
    computeToUpdate ["a.zip"]
      (syncRun "nes" ["a.zip"] [] defaultBatchOps (fun _ => none)
        (fun _ => none) ⟨[], []⟩).1
      defaultBatchOps
      (syncRun "nes" ["a.zip"] [] defaultBatchOps (fun _ => none)
        (fun _ => none) ⟨[], []⟩).2.fs = ["a.zip"] ∧
    defaultBatchOps.incremental = true := by
  exact ⟨by decide, rfl⟩

theorem fileMissingOrEmpty_false_iff (fs : Fs) (p : String) :
    fileMissingOrEmpty fs p = false ↔ nonemptyAt fs p := by
  unfold fileMissingOrEmpty nonemptyAt
  rcases hE : fsLookup fs p with _ | c
  · simp
  · simp only [hE]
    constructor
    · intro h
      refine ⟨c, rfl, ?_⟩
      intro hc
      subst hc
      simp at h
    · rintro ⟨c2, hc2, hne⟩
      cases hc2
      simp only [decide_eq_false_iff_not]
      intro hlen
      exact hne (List.eq_nil_of_length_eq_zero hlen)

theorem libLookup_libInsert_ne (lib : MediaLib) (url p url2 : String)
    (h : url2 ≠ url) :
    libLookup (libInsert lib url p) url2 = libLookup lib url2 := by
  unfold libLookup libInsert
  rw [List.find?_cons_of_neg _ (by simp only [decide_eq_true_eq]; exact Ne.symm h)]
  induction lib with
  | nil => rfl
  | cons kv lib ih =>
    rw [List.filter_cons]
    by_cases hkv : kv.1 = url
    · rw [show (decide (kv.1 ≠ url)) = false by simp [hkv]]
      simp only [Bool.false_eq_true, if_false]
      rw [List.find?_cons_of_neg _ (by
        simp only [decide_eq_true_eq]
        rw [hkv]
        exact Ne.symm h)]
      exact ih
    · rw [show (decide (kv.1 ≠ url)) = true by simp [hkv]]
      simp only [if_true]
      by_cases hq : kv.1 = url2
      · rw [List.find?_cons_of_pos _ (by simp [hq]),
          List.find?_cons_of_pos _ (by simp [hq])]
      · rw [List.find?_cons_of_neg _ (by simp [hq]),
          List.find?_cons_of_neg _ (by simp [hq])]
        exact ih

theorem libOk_erase (st : MediaState) (q : String) (h : libOk st) :
    libOk ⟨fsErase st.fs q, st.lib⟩ := by
  intro url p hp
  by_cases hpq : p = q
  · subst hpq
    left
    exact fsLookup_fsErase_self _ _
  · rcases h url p hp with hnone | ⟨c, hc, hne⟩
    · left
      rw [fsLookup_fsErase_ne _ _ _ hpq]
      exact hnone
    · right
      exact ⟨c, by rw [fsLookup_fsErase_ne _ _ _ hpq]; exact hc, hne⟩

theorem downloadFetch_good (url sys typ fn : String)
    (net : String → Option ByteSeq) (st : MediaState)
    (hurl : urlOk net url) (hlib : libOk st) :
    libOk (downloadFetch url sys typ fn net st).1 ∧
    nonemptyAt (downloadFetch url sys typ fn net st).1.fs
      (joinPath3 sys typ fn) ∧
    (∀ p, p ≠ joinPath3 sys typ fn →
      fsLookup (downloadFetch url sys typ fn net st).1.fs p =
        fsLookup st.fs p) := by
  obtain ⟨hne0, c, hc, hcne⟩ := hurl
  unfold downloadFetch
  simp only [hc]
  refine ⟨?_, ?_, ?_⟩
  · intro url2 p2 hp2
    by_cases hu2 : url2 = url
    · subst hu2
      rw [libLookup_libInsert_self] at hp2
      cases hp2
      right
      exact ⟨c, fsLookup_fsWrite_self _ _ _, hcne⟩
    · rw [libLookup_libInsert_ne _ _ _ _ hu2] at hp2
      by_cases hpt : p2 = joinPath3 sys typ fn
      · subst hpt
        right
        exact ⟨c, fsLookup_fsWrite_self _ _ _, hcne⟩
      · rcases hlib url2 p2 hp2 with hnone | ⟨c2, hc2, hne2⟩
        · left
          rw [fsLookup_fsWrite_ne _ _ _ _ hpt]
          exact hnone
        · right
          exact ⟨c2, by rw [fsLookup_fsWrite_ne _ _ _ _ hpt]; exact hc2, hne2⟩
  · exact ⟨c, fsLookup_fsWrite_self _ _ _, hcne⟩
  · intro p hp
    exact fsLookup_fsWrite_ne _ _ _ _ hp

theorem downloadCore_good (url sys typ fn : String)
    (net : String → Option ByteSeq) (st : MediaState)
    (hurl : urlOk net url) (hlib : libOk st) :
    libOk (downloadCore url sys typ fn net st).1 ∧
    nonemptyAt (downloadCore url sys typ fn net st).1.fs
      (joinPath3 sys typ fn) ∧
    (∀ p, p ≠ joinPath3 sys typ fn →
      fsLookup (downloadCore url sys typ fn net st).1.fs p =
        fsLookup st.fs p) := by
  unfold downloadCore
  rcases hL : libLookup st.lib url with _ | lp
  · simp only [hL]
    exact downloadFetch_good url sys typ fn net st hurl hlib
  · simp only [hL]
    rcases hS : fsLookup st.fs lp with _ | src
    · simp only [hS]
      exact downloadFetch_good url sys typ fn net st hurl hlib
    · simp only [hS]
      have hsrc_ne : src ≠ [] := by
        rcases hlib url lp hL with hnone | ⟨c2, hc2, hne2⟩
        · rw [hS] at hnone; cases hnone
        · rw [hS] at hc2
          cases hc2
          exact hne2
      refine ⟨?_, ⟨src, fsLookup_fsWrite_self _ _ _, hsrc_ne⟩, ?_⟩
      · intro url2 p2 hp2
        by_cases hpt : p2 = joinPath3 sys typ fn
        · subst hpt
          right
          exact ⟨src, fsLookup_fsWrite_self _ _ _, hsrc_ne⟩
        · rcases hlib url2 p2 hp2 with hnone | ⟨c2, hc2, hne2⟩
          · left
            rw [fsLookup_fsWrite_ne _ _ _ _ hpt]
            exact hnone
          · right
            exact ⟨c2, by rw [fsLookup_fsWrite_ne _ _ _ _ hpt]; exact hc2, hne2⟩
      · intro p hp
        exact fsLookup_fsWrite_ne _ _ _ _ hp

theorem downloadMedia_false_eq (url sys typ fn : String)
    (net : String → Option ByteSeq) (st : MediaState) :
    downloadMedia url sys typ fn false net st =
      match fsLookup st.fs (joinPath3 sys typ fn) with
      | some c =>
        if c.length > 0 then (⟨st.fs, st.lib⟩, DlAction.skipped)
        else downloadCore url sys typ fn net
          ⟨fsErase st.fs (joinPath3 sys typ fn), st.lib⟩
      | none => downloadCore url sys typ fn net ⟨st.fs, st.lib⟩ := by
  unfold downloadMedia
  simp

theorem downloadMedia_good (url sys typ fn : String) (ow : Bool)
    (net : String → Option ByteSeq) (st : MediaState)
    (hurl : urlOk net url) (hlib : libOk st) :
    libOk (downloadMedia url sys typ fn ow net st).1 ∧
    nonemptyAt (downloadMedia url sys typ fn ow net st).1.fs
      (joinPath3 sys typ fn) ∧
    (∀ p, p ≠ joinPath3 sys typ fn →
      fsLookup (downloadMedia url sys typ fn ow net st).1.fs p =
        fsLookup st.fs p) := by
  cases ow with
  | true =>
    rw [downloadMedia_overwrite_eq url sys typ fn net st, downloadMedia_on_erased]
    have hcore := downloadCore_good url sys typ fn net
      ⟨fsErase st.fs (joinPath3 sys typ fn), st.lib⟩ hurl (libOk_erase st _ hlib)
    refine ⟨hcore.1, hcore.2.1, ?_⟩
    intro p hp
    rw [hcore.2.2 p hp]
    exact fsLookup_fsErase_ne _ _ _ hp
  | false =>
    rw [downloadMedia_false_eq]
    rcases hE : fsLookup st.fs (joinPath3 sys typ fn) with _ | c
    · simp only [hE]
      have hcore := downloadCore_good url sys typ fn net ⟨st.fs, st.lib⟩ hurl hlib
      exact ⟨hcore.1, hcore.2.1, fun p hp => hcore.2.2 p hp⟩
    · simp only [hE]
      by_cases hlen : c.length > 0
      · rw [if_pos hlen]
        refine ⟨hlib, ⟨c, hE, ?_⟩, fun p hp => rfl⟩
        intro hc
        subst hc
        simp at hlen
      · rw [if_neg hlen]
        have hcore := downloadCore_good url sys typ fn net
          ⟨fsErase st.fs (joinPath3 sys typ fn), st.lib⟩ hurl (libOk_erase st _ hlib)
        refine ⟨hcore.1, hcore.2.1, ?_⟩
        intro p hp
        rw [hcore.2.2 p hp]
        exact fsLookup_fsErase_ne _ _ _ hp

/-- Preservation corollary: under a working URL, `downloadMedia` never makes
a present non-empty file absent or empty. -/
theorem downloadMedia_pres (url sys typ fn : String) (ow : Bool)
    (net : String → Option ByteSeq) (st : MediaState)
    (hurl : urlOk net url) (hlib : libOk st) :
    ∀ p, nonemptyAt st.fs p →
      nonemptyAt (downloadMedia url sys typ fn ow net st).1.fs p := by
  intro p hp
  have h := downloadMedia_good url sys typ fn ow net st hurl hlib
  by_cases hpt : p = joinPath3 sys typ fn
  · subst hpt
    exact h.2.1
  · obtain ⟨c, hc, hne⟩ := hp
    exact ⟨c, by rw [h.2.2 p hpt]; exact hc, hne⟩

theorem handleDownload_good (u sys F safeName : String) (ow : Bool)
    (net : String → Option ByteSeq) (st : MediaState)
    (hurl : urlOk net u) (hlib : libOk st) :
    (handleDownload u sys F F safeName ow net st).1 =
      some (joinPath3 sys F (safeName ++ extForDownload u F)) ∧
    libOk (handleDownload u sys F F safeName ow net st).2 ∧
    nonemptyAt (handleDownload u sys F F safeName ow net st).2.fs
      (joinPath3 sys F (safeName ++ extForDownload u F)) ∧
    (∀ p, nonemptyAt st.fs p →
      nonemptyAt (handleDownload u sys F F safeName ow net st).2.fs p) := by
  unfold handleDownload
  rw [if_neg hurl.1]
  have hgood := downloadMedia_good u sys F (safeName ++ extForDownload u F) ow
    net st hurl hlib
  have hpres := downloadMedia_pres u sys F (safeName ++ extForDownload u F) ow
    net st hurl hlib
  exact ⟨rfl, hgood.1, hgood.2.1, hpres⟩

/-- One optional-category download step of `processNewGame`: preserves the
store invariants; when the flag is set and a URL is present, it stores the
derived DB path and leaves a non-empty file there. -/
theorem dlStep_good (flag : Bool) (uOpt keep : Option String)
    (sys F safeName : String) (ow : Bool) (net : String → Option ByteSeq)
    (st : MediaState) (hlib : libOk st)
    (hopt : flag = true → ∀ u, uOpt = some u → urlOk net u) :
    libOk (dlStep flag uOpt keep sys F safeName ow net st).2 ∧
    (∀ p, nonemptyAt st.fs p →
      nonemptyAt (dlStep flag uOpt keep sys F safeName ow net st).2.fs p) ∧
    (flag = true → ∀ u, uOpt = some u →
      (dlStep flag uOpt keep sys F safeName ow net st).1 =
        some (joinPath3 sys F (safeName ++ extForDownload u F)) ∧
      nonemptyAt (dlStep flag uOpt keep sys F safeName ow net st).2.fs
        (joinPath3 sys F (safeName ++ extForDownload u F))) := by
  unfold dlStep
  cases flag with
  | false =>
    refine ⟨hlib, fun p hp => hp, ?_⟩
    intro hc
    cases hc
  | true =>
    cases uOpt with
    | none =>
      simp only [if_true]
      refine ⟨hlib, fun p hp => hp, ?_⟩
      intro _ u2 hueq
      cases hueq
    | some u =>
      have hurl := hopt rfl u rfl
      have hg := handleDownload_good u sys F safeName ow net st hurl hlib
      simp only [if_true]
      refine ⟨hg.2.1, hg.2.2.2, ?_⟩
      intro _ u2 hueq
      cases hueq
      exact ⟨hg.1, hg.2.2.1⟩

theorem missingDescB_false_iff (ops : SyncOps) (g : ScanRow) :
    missingDescB ops g = false ↔
      (ops.syncInfo = true → ¬(g.desc = "" ∨ g.desc = NO_DESC)) := by
  cases hS : ops.syncInfo <;> simp [missingDescB, hS]

theorem missingPrimaryAssetB_false_iff (flag : Bool) (pf : Option String)
    (fs : Fs) :
    missingPrimaryAssetB flag pf fs = false ↔
      (flag = true → ∃ p, pf = some p ∧ nonemptyAt fs p) := by
  cases flag with
  | false => simp [missingPrimaryAssetB]
  | true =>
    cases pf with
    | none => simp [missingPrimaryAssetB]
    | some p => simp [missingPrimaryAssetB, fileMissingOrEmpty_false_iff]

theorem missingSecondaryAssetB_false_iff (flag : Bool) (pf : Option String)
    (fs : Fs) :
    missingSecondaryAssetB flag pf fs = false ↔
      (flag = true → ∃ p, pf = some p ∧ nonemptyAt fs p) := by
  cases flag with
  | false => simp [missingSecondaryAssetB]
  | true =>
    cases pf with
    | none => simp [missingSecondaryAssetB]
    | some p => simp [missingSecondaryAssetB, fileMissingOrEmpty_false_iff]

theorem needsUpdate_false_iff (ops : SyncOps) (fs : Fs) (g : ScanRow) :
    needsUpdate ops fs g = false ↔
      ops.incremental = true ∧
      (ops.syncInfo = true → ¬(g.desc = "" ∨ g.desc = NO_DESC)) ∧
      (ops.syncImages = true → ∃ p, g.image_path = some p ∧ nonemptyAt fs p) ∧
      (ops.syncVideo = true → ∃ p, g.video_path = some p ∧ nonemptyAt fs p) ∧
      (ops.syncMarquees = true → ∃ p, g.marquee_path = some p ∧ nonemptyAt fs p) ∧
      (ops.syncBoxArt = true →
        ∃ p, g.box_texture_path = some p ∧ nonemptyAt fs p) := by
  rcases hI : ops.incremental with _ | _
  · simp [needsUpdate, hI]
  · simp [needsUpdate, hI, missingDescB_false_iff, missingPrimaryAssetB_false_iff,
      missingSecondaryAssetB_false_iff, and_assoc]

theorem needsUpdate_false_mono (ops : SyncOps) (fs fs2 : Fs) (g : ScanRow)
    (hpres : ∀ p, nonemptyAt fs p → nonemptyAt fs2 p)
    (h : needsUpdate ops fs g = false) : needsUpdate ops fs2 g = false := by
  rw [needsUpdate_false_iff] at h ⊢
  obtain ⟨h1, h2, h3, h4, h5, h6⟩ := h
  refine ⟨h1, h2, ?_, ?_, ?_, ?_⟩ <;> intro hf
  · obtain ⟨p, hp, hne⟩ := h3 hf
    exact ⟨p, hp, hpres p hne⟩
  · obtain ⟨p, hp, hne⟩ := h4 hf
    exact ⟨p, hp, hpres p hne⟩
  · obtain ⟨p, hp, hne⟩ := h5 hf
    exact ⟨p, hp, hpres p hne⟩
  · obtain ⟨p, hp, hne⟩ := h6 hf
    exact ⟨p, hp, hpres p hne⟩

theorem scrapeApply_good (sys fn : String) (seed : RowSeed) (ops : SyncOps)
    (d : ScraperData) (net : String → Option ByteSeq) (st : MediaState)
    (hcomp : scrapeComplete ops net d) (hlib : libOk st) :
    libOk (scrapeApply sys fn seed ops d net st).2 ∧
    (∀ p, nonemptyAt st.fs p →
      nonemptyAt (scrapeApply sys fn seed ops d net st).2.fs p) ∧
    (ops.incremental = true →
      needsUpdate ops (scrapeApply sys fn seed ops d net st).2.fs
        (scrapeApply sys fn seed ops d net st).1 = false) := by
  obtain ⟨hinfo, himg, hvid, hmar, hbox⟩ := hcomp
  have hBA : ops.syncImages = true → ∀ u, d.boxArtUrl = some u → urlOk net u := by
    intro hf u hu
    obtain ⟨s, hs, hok⟩ := (himg hf).1
    rw [hs] at hu
    cases hu
    exact hok
  have hSU : ops.syncImages = true → ∀ u, d.screenUrl = some u → urlOk net u :=
    fun hf u hu => (himg hf).2 u hu
  have hVU : ops.syncVideo = true → ∀ u, d.videoUrl = some u → urlOk net u := by
    intro hf u hu
    obtain ⟨s, hs, hok⟩ := hvid hf
    rw [hs] at hu
    cases hu
    exact hok
  have hMU : ops.syncMarquees = true → ∀ u, d.marqueeUrl = some u → urlOk net u := by
    intro hf u hu
    obtain ⟨s, hs, hok⟩ := hmar hf
    rw [hs] at hu
    cases hu
    exact hok
  have hXU : ops.syncBoxArt = true → ∀ u, d.boxTextureUrl = some u → urlOk net u := by
    intro hf u hu
    obtain ⟨s, hs, hok⟩ := hbox hf
    rw [hs] at hu
    cases hu
    exact hok
  unfold scrapeApply
  simp only
  set sn := sanitizeName d.name with hsn
  set stA := dlStep ops.syncImages d.boxArtUrl seed.image sys "covers" sn
    ops.overwrite net st with hstA
  have hA := dlStep_good ops.syncImages d.boxArtUrl seed.image sys "covers" sn
    ops.overwrite net st hlib hBA
  set stB := dlStep ops.syncImages d.screenUrl seed.screenshot sys
    "screenshots" sn ops.overwrite net stA.2 with hstB
  have hB := dlStep_good ops.syncImages d.screenUrl seed.screenshot sys
    "screenshots" sn ops.overwrite net stA.2 hA.1 hSU
  set stC := dlStep ops.syncVideo d.videoUrl seed.video sys "videos" sn
    ops.overwrite net stB.2 with hstC
  have hC := dlStep_good ops.syncVideo d.videoUrl seed.video sys "videos" sn
    ops.overwrite net stB.2 hB.1 hVU
  set stD := dlStep ops.syncMarquees d.marqueeUrl seed.marquee sys "marquees"
    sn ops.overwrite net stC.2 with hstD
  have hD := dlStep_good ops.syncMarquees d.marqueeUrl seed.marquee sys
    "marquees" sn ops.overwrite net stC.2 hC.1 hMU
  set stE := dlStep ops.syncBoxArt d.boxTextureUrl seed.boxTexture sys
    "boxtextures" sn ops.overwrite net stD.2 with hstE
  have hE := dlStep_good ops.syncBoxArt d.boxTextureUrl seed.boxTexture sys
    "boxtextures" sn ops.overwrite net stD.2 hD.1 hXU
  refine ⟨hE.1, ?_, ?_⟩
  · intro p hp
    exact hE.2.1 p (hD.2.1 p (hC.2.1 p (hB.2.1 p (hA.2.1 p hp))))
  · intro hinc
    rw [needsUpdate_false_iff]
    refine ⟨hinc, ?_, ?_, ?_, ?_, ?_⟩
    · intro hsi
      show ¬((if ops.syncInfo then d.desc else seed.desc) = "" ∨ _ = NO_DESC)
      rw [if_pos hsi]
      intro hc
      rcases hc with hc | hc
      · exact (hinfo hsi).1 hc
      · exact (hinfo hsi).2 hc
    · intro hf
      obtain ⟨s, hs, hok⟩ := (himg hf).1
      obtain ⟨hpath, hne⟩ := hA.2.2 hf s hs
      refine ⟨joinPath3 sys "covers" (sn ++ extForDownload s "covers"), hpath, ?_⟩
      exact hE.2.1 _ (hD.2.1 _ (hC.2.1 _ (hB.2.1 _ hne)))
    · intro hf
      obtain ⟨s, hs, hok⟩ := hvid hf
      obtain ⟨hpath, hne⟩ := hC.2.2 hf s hs
      refine ⟨joinPath3 sys "videos" (sn ++ extForDownload s "videos"), hpath, ?_⟩
      exact hE.2.1 _ (hD.2.1 _ hne)
    · intro hf
      obtain ⟨s, hs, hok⟩ := hmar hf
      obtain ⟨hpath, hne⟩ := hD.2.2 hf s hs
      refine ⟨joinPath3 sys "marquees" (sn ++ extForDownload s "marquees"), hpath, ?_⟩
      exact hE.2.1 _ hne
    · intro hf
      obtain ⟨s, hs, hok⟩ := hbox hf
      obtain ⟨hpath, hne⟩ := hE.2.2 hf s hs
      exact ⟨joinPath3 sys "boxtextures" (sn ++ extForDownload s "boxtextures"),
        hpath, hne⟩

theorem processNewGame_good (sys fn : String) (oldData : Option ScanRow)
    (ops : SyncOps) (d : ScraperData) (net : String → Option ByteSeq)
    (st : MediaState)
    (hcomp : scrapeComplete ops net d) (hlib : libOk st) :
    libOk (processNewGame sys fn oldData ops (some d) net st).2 ∧
    (∀ p, nonemptyAt st.fs p →
      nonemptyAt (processNewGame sys fn oldData ops (some d) net st).2.fs p) ∧
    (ops.incremental = true →
      needsUpdate ops (processNewGame sys fn oldData ops (some d) net st).2.fs
        (processNewGame sys fn oldData ops (some d) net st).1 = false) := by
  unfold processNewGame
  rcases hss : (ops.syncInfo || ops.syncImages || ops.syncVideo ||
    ops.syncMarquees || ops.syncBoxArt || oldData.isNone) with _ | _
  · simp only [hss]
    have hflags := hss
    simp only [Bool.or_eq_false_iff] at hflags
    obtain ⟨⟨⟨⟨⟨hsi, hsim⟩, hsv⟩, hsm⟩, hsb⟩, -⟩ := hflags
    refine ⟨hlib, fun p hp => hp, ?_⟩
    intro hinc
    rw [needsUpdate_false_iff]
    refine ⟨hinc, ?_, ?_, ?_, ?_, ?_⟩ <;> intro hf
    · rw [hsi] at hf; cases hf
    · rw [hsim] at hf; cases hf
    · rw [hsv] at hf; cases hf
    · rw [hsm] at hf; cases hf
    · rw [hsb] at hf; cases hf
  · simp only [hss]
    exact scrapeApply_good sys fn (rowSeed st.fs sys fn oldData) ops d net st
      hcomp hlib

theorem contains_iff_mem_str (l : List String) (x : String) :
    l.contains x = true ↔ x ∈ l := by
  induction l with
  | nil => simp
  | cons a l ih =>
    simp only [List.contains_cons, Bool.or_eq_true, beq_iff_eq, ih,
      List.mem_cons]

theorem dedup_fold_mem (l : List String) :
    ∀ (acc : List String) (x : String),
      (x ∈ l.foldl (fun acc x => if acc.contains x then acc else acc ++ [x]) acc) ↔
        x ∈ acc ∨ x ∈ l := by
  induction l with
  | nil => simp
  | cons y l ih =>
    intro acc x
    rw [List.foldl_cons]
    by_cases hy : acc.contains y
    · rw [if_pos hy, ih]
      have hymem : y ∈ acc := (contains_iff_mem_str acc y).mp hy
      simp only [List.mem_cons]
      constructor
      · rintro (h | h)
        · exact Or.inl h
        · exact Or.inr (Or.inr h)
      · rintro (h | h | h)
        · exact Or.inl h
        · exact Or.inl (h ▸ hymem)
        · exact Or.inr h
    · rw [if_neg hy, ih]
      simp only [List.mem_append, List.mem_singleton, List.mem_cons]
      tauto

theorem mem_dedupKeepFirst (l : List String) (x : String) :
    x ∈ dedupKeepFirst l ↔ x ∈ l := by
  unfold dedupKeepFirst
  rw [dedup_fold_mem]
  simp

theorem lookupRowLast_isSome_aux (rows : List ScanRow) (fn : String) :
    ∀ acc : Option ScanRow, (acc.isSome ∨ ∃ g ∈ rows, g.filename = fn) →
      (rows.foldl (fun acc g => if g.filename = fn then some g else acc)
        acc).isSome := by
  induction rows with
  | nil =>
    intro acc h
    rcases h with h | ⟨g, hg, -⟩
    · exact h
    · exact absurd hg (List.not_mem_nil _)
  | cons r rows ih =>
    intro acc h
    rw [List.foldl_cons]
    apply ih
    by_cases hr : r.filename = fn
    · left
      rw [if_pos hr]
      rfl
    · rcases h with h | ⟨g, hg, hgf⟩
      · left
        rw [if_neg hr]
        exact h
      · rcases List.mem_cons.mp hg with rfl | hg2
        · exact absurd hgf hr
        · right
          exact ⟨g, hg2, hgf⟩

theorem lookupRowLast_isSome_of_mem (rows : List ScanRow) (fn : String)
    (g : ScanRow) (hg : g ∈ rows) (hf : g.filename = fn) :
    (lookupRowLast rows fn).isSome :=
  lookupRowLast_isSome_aux rows fn none (Or.inr ⟨g, hg, hf⟩)

/-- The per-file fold of a batch run keeps the store invariants and, with
complete scrape data for every remaining task, ends with every row of the
accumulated table passing the incremental test. -/
theorem syncFold_inv (sys : String) (dbGames : List ScanRow) (ops : SyncOps)
    (scrape : String → Option ScraperData) (net : String → Option ByteSeq)
    (hinc : ops.incremental = true) :
    ∀ (tasks : List String) (rows : List ScanRow) (st : MediaState),
      (∀ f ∈ tasks, ∃ d, scrape f = some d ∧ scrapeComplete ops net d) →
      libOk st →
      (∀ g ∈ rows, needsUpdate ops st.fs g = false ∨
        (g.filename ∈ tasks ∧ (lookupRowLast dbGames g.filename).isSome)) →
      (∀ g ∈ (List.foldl (syncStep sys dbGames ops scrape net) (rows, st)
          tasks).1,
        needsUpdate ops
          (List.foldl (syncStep sys dbGames ops scrape net) (rows, st)
            tasks).2.fs g = false) ∧
      libOk (List.foldl (syncStep sys dbGames ops scrape net) (rows, st)
        tasks).2 := by
  intro tasks
  induction tasks with
  | nil =>
    intro rows st htasks hlib hinv
    rw [List.foldl_nil]
    refine ⟨?_, hlib⟩
    intro g hg
    rcases hinv g hg with h | ⟨hmem, -⟩
    · exact h
    · exact absurd hmem (List.not_mem_nil _)
  | cons f tasks ih =>
    intro rows st htasks hlib hinv
    rw [List.foldl_cons]
    obtain ⟨d, hd, hdc⟩ := htasks f (List.mem_cons_self _ _)
    have hpng := processNewGame_good sys f (lookupRowLast dbGames f) ops d net
      st hdc hlib
    rw [← hd] at hpng
    rcases hold : lookupRowLast dbGames f with _ | od
    all_goals rw [hold] at hpng
    · have hstep : syncStep sys dbGames ops scrape net (rows, st) f =
          (rows ++ [(processNewGame sys f none ops (scrape f) net st).1],
            (processNewGame sys f none ops (scrape f) net st).2) := by
        simp [syncStep, hold]
      rw [hstep]
      apply ih _ _ (fun f2 hf2 => htasks f2 (List.mem_cons_of_mem _ hf2)) hpng.1
      intro g hg
      rcases List.mem_append.mp hg with hg1 | hg1
      · rcases hinv g hg1 with h | ⟨hmem, hlook⟩
        · exact Or.inl (needsUpdate_false_mono ops st.fs _ g hpng.2.1 h)
        · rcases List.mem_cons.mp hmem with heq | hmem2
          · rw [heq, hold] at hlook
            cases hlook
          · exact Or.inr ⟨hmem2, hlook⟩
      · rw [List.mem_singleton.mp hg1]
        exact Or.inl (hpng.2.2 hinc)
    · have hstep : syncStep sys dbGames ops scrape net (rows, st) f =
          (rows.filter (fun g => g.filename ≠ f) ++
            [(processNewGame sys f (some od) ops (scrape f) net st).1],
            (processNewGame sys f (some od) ops (scrape f) net st).2) := by
        simp [syncStep, hold]
      rw [hstep]
      apply ih _ _ (fun f2 hf2 => htasks f2 (List.mem_cons_of_mem _ hf2)) hpng.1
      intro g hg
      rcases List.mem_append.mp hg with hg1 | hg1
      · obtain ⟨hg2, hgne⟩ := List.mem_filter.mp hg1
        rcases hinv g hg2 with h | ⟨hmem, hlook⟩
        · exact Or.inl (needsUpdate_false_mono ops st.fs _ g hpng.2.1 h)
        · rcases List.mem_cons.mp hmem with heq | hmem2
          · rw [heq] at hgne
            simp at hgne
          · exact Or.inr ⟨hmem2, hlook⟩
      · rw [List.mem_singleton.mp hg1]
        exact Or.inl (hpng.2.2 hinc)

/-- Claim C2, amended: running reconciliation twice with no disk changes
between the runs and `incremental = true` produces an empty `toUpdate` set
on the second run *provided the first run's enrichment succeeded*: for every
on-disk file the metadata lookup returns a hit whose synopsis is real (when
`syncInfo`) and whose URL for each enabled asset category downloads to a
non-empty file, and the dedup cache holds no entry pointing at a present
empty file. (A lookup miss, a missing URL or a failed download leaves the
affected file qualifying again — see the counterexample.) -/
theorem reconciliation_idempotent_amended (sys : String)
    (diskFiles : List String) (dbGames : List ScanRow) (ops : SyncOps)
    (scrape : String → Option ScraperData) (net : String → Option ByteSeq)
    (st0 : MediaState)
    (hinc : ops.incremental = true)
    (hcomp : ∀ f ∈ diskFiles, ∃ d, scrape f = some d ∧ scrapeComplete ops net d)
    (hlib : libOk st0) :
    computeToUpdate diskFiles
      (syncRun sys diskFiles dbGames ops scrape net st0).1 ops
      (syncRun sys diskFiles dbGames ops scrape net st0).2.fs = [] := by
  set tl := dedupKeepFirst
    (diskFiles.filter (fun f => (lookupRowLast dbGames f).isNone) ++
      computeToUpdate diskFiles dbGames ops st0.fs) with htl
  set surv := dbGames.filter (fun g => diskFiles.contains g.filename) with hsurv
  have htasks : ∀ f ∈ tl, ∃ d, scrape f = some d ∧ scrapeComplete ops net d := by
    intro f hf
    rw [htl, mem_dedupKeepFirst] at hf
    rcases List.mem_append.mp hf with hf | hf
    · exact hcomp f (List.mem_filter.mp hf).1
    · unfold computeToUpdate at hf
      obtain ⟨g, hg, rfl⟩ := List.mem_map.mp hf
      have hgf := (List.mem_filter.mp hg).2
      simp only [Bool.and_eq_true] at hgf
      exact hcomp g.filename ((contains_iff_mem_str _ _).mp hgf.1)
  have hinv : ∀ g ∈ surv, needsUpdate ops st0.fs g = false ∨
      (g.filename ∈ tl ∧ (lookupRowLast dbGames g.filename).isSome) := by
    intro g hg
    rw [hsurv] at hg
    obtain ⟨hgdb, hgc⟩ := List.mem_filter.mp hg
    rcases hnu : needsUpdate ops st0.fs g with _ | _
    · exact Or.inl rfl
    · refine Or.inr ⟨?_, lookupRowLast_isSome_of_mem dbGames g.filename g hgdb rfl⟩
      rw [htl, mem_dedupKeepFirst]
      apply List.mem_append.mpr
      right
      unfold computeToUpdate
      apply List.mem_map.mpr
      refine ⟨g, ?_, rfl⟩
      apply List.mem_filter.mpr
      exact ⟨hgdb, by simp only [hgc, hnu, Bool.and_self]⟩
  have hfold := syncFold_inv sys dbGames ops scrape net hinc tl surv st0
    htasks hlib hinv
  have hrun : syncRun sys diskFiles dbGames ops scrape net st0 =
      List.foldl (syncStep sys dbGames ops scrape net) (surv, st0) tl := rfl
  rw [hrun]
  unfold computeToUpdate
  have hfilter : (List.foldl (syncStep sys dbGames ops scrape net) (surv, st0)
        tl).1.filter
      (fun g => diskFiles.contains g.filename &&
        needsUpdate ops (List.foldl (syncStep sys dbGames ops scrape net)
          (surv, st0) tl).2.fs g) = [] := by
    apply List.filter_eq_nil.mpr
    intro g hg
    have hfalse := hfold.1 g hg
    simp [hfalse]
  rw [hfilter]
  rfl

theorem reconciliation_idempotent_amended_witness :
    computeToUpdate ["a.zip"]
      (syncRun "nes" ["a.zip"] [] defaultBatchOps (fun _ => some c2ScrapeData)
        c2Net ⟨[], []⟩).1 defaultBatchOps
      (syncRun "nes" ["a.zip"] [] defaultBatchOps (fun _ => some c2ScrapeData)
        c2Net ⟨[], []⟩).2.fs = [] :=
  reconciliation_idempotent_amended "nes" ["a.zip"] [] defaultBatchOps
    (fun _ => some c2ScrapeData) c2Net ⟨[], []⟩ rfl
    (by
      intro f hf
      refine ⟨c2ScrapeData, rfl, ?_, ?_, ?_, ?_, ?_⟩
      · intro _
        exact ⟨by decide, by decide⟩
      · intro _
        refine ⟨⟨"http://x/a.png", rfl, by decide, ⟨[7], by decide, by decide⟩⟩, ?_⟩
        intro s h
        cases h
      · intro h
        cases h
      · intro _
        exact ⟨"http://x/m.png", rfl, by decide, ⟨[7], by decide, by decide⟩⟩
      · intro h
        cases h)
    (by
      intro url p h
      simp [libLookup] at h)

theorem response_validation_witness :
    (isValidGame (some c3Jeu) = true →
      ∃ jeu, (some c3Jeu) = some jeu ∧ jeu.id ≠ "" ∧
        strStartsWith (jsToUpper (getLocalizedText jeu.noms)) NOTGAME_PREFIX = false) ∧
    (isValidGame (some c3Jeu) = false →
      tryJeuInfosMD5 (Except.ok (some c3Jeu)) "mario" = none ∧
      tryJeuInfosFilename (Except.ok (some c3Jeu)) "mario" = none) ∧
    (searchByText (Except.ok (some c6Jeux)) "mario" =
      match tier3ValidPick c6Jeux with
      | some g => if g.id ≠ "" then some ⟨g, "mario"⟩ else none
      | none => none) :=
  response_validation (some c3Jeu) "mario" c6Jeux

end RetroRomWeb
